import Mathlib

/-!
Verification development for the `generate_terms.py` static glossary build
of the www.mycal.net repository.

The script is a one-shot batch transformation: read one JSON file per term
from a data directory, validate the shape of each file, backfill a missing
`termId` (a `urn:uuid:...` identifier) into the source file, build an
alias-to-canonical-slug map rejecting collisions, assemble a JSON-LD graph,
and write an index page, per-term pages, alias redirect pages, JSON/NDJSON
exports and a sitemap.

This file shallowly embeds that pipeline:
* parsed JSON values become the inductive `JValue`; a parsed term file is a
  `JObj` (an association list, mirroring a Python dict with its insertion
  order and lookup semantics);
* the data directory becomes a list of `SrcFile` records (filename, parsed
  data, mtime in epoch seconds); `pathlib` globbing and `sorted()` become a
  filter and an insertion sort;
* `uuid.uuid4()` becomes an explicit supply `Nat → String` of fresh UUID
  bodies, making the only source of nondeterminism an explicit parameter;
* `fail()`/`sys.exit(1)` become the `Except.error` branch: a run either
  produces a full `SiteOutput` or aborts with a message before any output
  is produced (termId backfills into *source* files excepted, as in the
  script).
-/

namespace MycalTerms

/-- A parsed JSON value (the result of `json.load`). -/
inductive JValue where
  | null
  | bool (b : Bool)
  | num (n : Int)
  | str (s : String)
  | arr (xs : List JValue)
  | obj (fields : List (String × JValue))
  deriving Repr

/-- A parsed JSON object (Python dict): ordered key/value association list.
`json.load` produces dicts with unique keys, and dict assignment either
replaces the value in place or appends a fresh key. -/
abbrev JObj := List (String × JValue)

/-- Dict lookup, `data.get(key)`. -/
def jGet : JObj → String → Option JValue
  | [], _ => none
  | (k, v) :: rest, key => if k = key then some v else jGet rest key

/-- Dict membership, `key in data`. -/
def jHas (d : JObj) (key : String) : Bool := (jGet d key).isSome

/-- Dict assignment `data[key] = v`: replace in place, or append a fresh key. -/
def jSet : JObj → String → JValue → JObj
  | [], key, v => [(key, v)]
  | (k, w) :: rest, key, v =>
    if k = key then (key, v) :: rest else (k, w) :: jSet rest key v

/-- Python truthiness of a JSON value (`if term_id:`). -/
def jTruthy : JValue → Bool
  | .null => false
  | .bool b => b
  | .num n => n != 0
  | .str s => s != ""
  | .arr xs => !xs.isEmpty
  | .obj fs => !fs.isEmpty

/-- The characters stripped by Python `str.strip()` (ASCII whitespace). -/
def isPySpace (c : Char) : Bool :=
  c = ' ' || c = '\t' || c = '\n' || c = '\r' || c = '\x0b' || c = '\x0c'

/-- `s.strip()` is non-empty, i.e. `s` has a non-whitespace character. -/
def hasNonWs (s : String) : Bool := s.data.any (fun c => !isPySpace c)

/-- Hexadecimal digit, as accepted by the `[0-9a-fA-F]` character class. -/
def isHexChar (c : Char) : Bool :=
  c.isDigit || ('a' ≤ c && c ≤ 'f') || ('A' ≤ c && c ≤ 'F')

/-- Split a character list on a separator character (like `str.split('-')`). -/
def splitOnChar (sep : Char) : List Char → List (List Char)
  | [] => [[]]
  | c :: rest =>
    match splitOnChar sep rest with
    | [] => if c = sep then [[], []] else [[c]]
    | h :: t => if c = sep then [] :: h :: t else (c :: h) :: t

/-- The `8-4-4-4-12` hex-digit groups of a UUID body. -/
def uuidChars (cs : List Char) : Bool :=
  match splitOnChar '-' cs with
  | [a, b, c, d, e] =>
    a.length = 8 && b.length = 4 && c.length = 4 && d.length = 4 &&
    e.length = 12 && (a ++ b ++ c ++ d ++ e).all isHexChar
  | _ => false

/-- `s` has the textual shape of `str(uuid.uuid4())`. -/
def isUuidShape (s : String) : Bool := uuidChars s.data

/-- Anchored body of `TERM_ID_RE`: `urn:uuid:` followed by a UUID body. -/
def termIdCore : List Char → Bool
  | 'u' :: 'r' :: 'n' :: ':' :: 'u' :: 'u' :: 'i' :: 'd' :: ':' :: rest =>
    uuidChars rest
  | _ => false

/-- `TERM_ID_RE.match(s)` succeeds.  Python's `$` also matches just before a
single trailing newline, which we reproduce. -/
def termIdMatch (s : String) : Bool :=
  termIdCore s.data ||
    (match s.data.getLast? with
     | some '\n' => termIdCore s.data.dropLast
     | _ => false)

/-- Gregorian leap year. -/
def isLeapYear (y : Nat) : Bool := y % 4 = 0 && (y % 100 ≠ 0 || y % 400 = 0)

/-- Number of days in a month. -/
def daysInMonth (y m : Nat) : Nat :=
  if m = 2 then (if isLeapYear y then 29 else 28)
  else if m = 4 || m = 6 || m = 9 || m = 11 then 30
  else 31

/-- Decimal value of a digit run. -/
def digitsToNat (cs : List Char) : Nat :=
  cs.foldl (fun a c => a * 10 + (c.toNat - 48)) 0

/-- `datetime.strptime(s, "%Y-%m-%d")` succeeds: a 4-digit year, a 1-2 digit
month in 1..12, a 1-2 digit day valid for that month, nothing else. -/
def isValidIsoDate (s : String) : Bool :=
  match splitOnChar '-' s.data with
  | [ys, ms, ds] =>
    ys.length = 4 && ys.all Char.isDigit &&
    (ms.length = 1 || ms.length = 2) && ms.all Char.isDigit &&
    (ds.length = 1 || ds.length = 2) && ds.all Char.isDigit &&
    (let y := digitsToNat ys
     let m := digitsToNat ms
     let d := digitsToNat ds
     1 ≤ y && 1 ≤ m && m ≤ 12 && 1 ≤ d && d ≤ daysInMonth y m)
  | _ => false

/-- Error messages of `fail()` all start with the offending filename;
`errMsg fn rest` is the f-string `f"{filename} ..."`. -/
def errMsg (fn rest : String) : String := fn ++ " " ++ rest

/-- Sequencing of two checks that `fail` on violation: the first error wins. -/
def vSeq : Except String Unit → Except String Unit → Except String Unit
  | .ok _, b => b
  | .error e, _ => .error e

/-- `field not in data` check of the required-fields loop. -/
def checkHas (d : JObj) (fn f : String) : Except String Unit :=
  if jHas d f then .ok () else .error (errMsg fn ("missing required field '" ++ f ++ "'"))

/-- `not isinstance(data[f], str) or not data[f].strip()` check. -/
def checkNonemptyStr (d : JObj) (fn f : String) : Except String Unit :=
  match jGet d f with
  | some (.str s) =>
    if hasNonWs s then .ok ()
    else .error (errMsg fn ("field '" ++ f ++ "' must be a non-empty string"))
  | _ => .error (errMsg fn ("field '" ++ f ++ "' must be a non-empty string"))

/-- Checks on one element of `links`. -/
def checkLinkItem (fn : String) (i : Nat) (v : JValue) : Except String Unit :=
  match v with
  | .obj fs =>
    vSeq
      (if jHas fs "url" && jHas fs "label" then .ok ()
       else .error (errMsg fn ("links[" ++ toString i ++ "] must include 'url' and 'label'")))
      (vSeq
        (match jGet fs "url" with
         | some (.str s) =>
           if hasNonWs s then .ok ()
           else .error (errMsg fn ("links[" ++ toString i ++ "].url must be a non-empty string"))
         | _ => .error (errMsg fn ("links[" ++ toString i ++ "].url must be a non-empty string")))
        (match jGet fs "label" with
         | some (.str s) =>
           if hasNonWs s then .ok ()
           else .error (errMsg fn ("links[" ++ toString i ++ "].label must be a non-empty string"))
         | _ => .error (errMsg fn ("links[" ++ toString i ++ "].label must be a non-empty string"))))
  | _ => .error (errMsg fn ("links[" ++ toString i ++ "] must be an object"))

/-- The `for i, link in enumerate(links)` loop. -/
def checkLinkItems (fn : String) (i : Nat) : List JValue → Except String Unit
  | [] => .ok ()
  | v :: rest => vSeq (checkLinkItem fn i v) (checkLinkItems fn (i + 1) rest)

/-- The `links` checks: a non-empty array, then the per-item loop. -/
def checkLinks (d : JObj) (fn : String) : Except String Unit :=
  match jGet d "links" with
  | some (.arr ls) =>
    if ls.isEmpty then .error (errMsg fn "field 'links' must be a non-empty array")
    else checkLinkItems fn 0 ls
  | _ => .error (errMsg fn "field 'links' must be a non-empty array")

/-- `isinstance(s, str) and s.strip()` for one element of an optional
string array. -/
def strElemOk : JValue → Bool
  | .str s => hasNonWs s
  | _ => false

/-- Optional `sameAs`/`aliases`: list of non-empty (stripped) strings. -/
def checkOptStrArray (d : JObj) (fn f : String) : Except String Unit :=
  match jGet d f with
  | none => .ok ()
  | some (.arr xs) =>
    if xs.all strElemOk then .ok ()
    else .error (errMsg fn ("field '" ++ f ++ "' must be an array of non-empty strings"))
  | some _ => .error (errMsg fn ("field '" ++ f ++ "' must be an array of non-empty strings"))

/-- Optional `termId`: a string matching `TERM_ID_RE`. -/
def checkTermId (d : JObj) (fn : String) : Except String Unit :=
  match jGet d "termId" with
  | none => .ok ()
  | some (.str s) =>
    if termIdMatch s then .ok ()
    else .error (errMsg fn "field 'termId' must match urn:uuid:<uuid-v4-like-format>")
  | some _ => .error (errMsg fn "field 'termId' must match urn:uuid:<uuid-v4-like-format>")

/-- Optional `temporalCoverage`: a non-empty string. -/
def checkTemporal (d : JObj) (fn : String) : Except String Unit :=
  match jGet d "temporalCoverage" with
  | none => .ok ()
  | some (.str s) =>
    if hasNonWs s then .ok ()
    else .error (errMsg fn "field 'temporalCoverage' must be a non-empty string")
  | some _ => .error (errMsg fn "field 'temporalCoverage' must be a non-empty string")

/-- Optional date field: a string that `parse_iso_date` accepts. -/
def checkOptDate (d : JObj) (fn f : String) : Except String Unit :=
  match jGet d f with
  | none => .ok ()
  | some (.str s) =>
    if isValidIsoDate s then .ok ()
    else .error (errMsg fn ("has invalid " ++ f ++ " '" ++ s ++ "' (expected YYYY-MM-DD)"))
  | some _ => .error (errMsg fn ("field '" ++ f ++ "' must be a string"))

/-- `validate_term_types(data, filename)`: the full check sequence, in source
order; any violation aborts with the first failing check's message. -/
def validateTermTypes (d : JObj) (fn : String) : Except String Unit :=
  vSeq (checkHas d fn "name") (vSeq (checkHas d fn "date")
    (vSeq (checkHas d fn "description") (vSeq (checkHas d fn "links")
      (vSeq (checkNonemptyStr d fn "name") (vSeq (checkNonemptyStr d fn "date")
        (vSeq (checkNonemptyStr d fn "description") (vSeq (checkLinks d fn)
          (vSeq (checkOptStrArray d fn "sameAs") (vSeq (checkOptStrArray d fn "aliases")
            (vSeq (checkTermId d fn) (vSeq (checkTemporal d fn)
              (vSeq (checkOptDate d fn "startDate") (vSeq (checkOptDate d fn "endDate")
                (checkOptDate d fn "dateISO"))))))))))))))

/-- `normalize_term_file(filepath, data)`: return the existing (truthy)
`termId`, or generate `urn:uuid:<fresh>`, store it in the data and write the
file back.  Returns the id, the (possibly updated) file data, and whether
the file was rewritten. -/
def normalizeTermFile (d : JObj) (fresh : String) : JValue × JObj × Bool :=
  match jGet d "termId" with
  | some v =>
    if jTruthy v then (v, d, false)
    else
      let tid := "urn:uuid:" ++ fresh
      (.str tid, jSet d "termId" (.str tid), true)
  | none =>
    let tid := "urn:uuid:" ++ fresh
    (.str tid, jSet d "termId" (.str tid), true)

/-- One entry of the term's `links` list, after normalization. -/
structure Link where
  url : String
  label : String
  deriving Repr, DecidableEq

/-- The normalized in-memory term record built by `load_terms` (the dict
appended to `terms`).  `source_mtime` is modeled as epoch seconds. -/
structure Term where
  slug : String
  name : String
  date : String
  description : String
  links : List Link
  sameAs : List String
  aliases : List String
  termId : String
  temporalCoverage : Option String
  startDate : Option String
  endDate : Option String
  dateISO : Option String
  mtime : Nat
  deriving Repr, DecidableEq

/-- One file of the data directory: filename, parsed JSON content,
modification time in epoch seconds. -/
structure SrcFile where
  name : String
  data : JObj
  mtime : Nat
  deriving Repr

/-- String content of a JSON value known (after validation) to be a string. -/
def strOf : JValue → String
  | .str s => s
  | _ => ""

/-- `data.get(f)` for an optional field that validation forces to be a
string when present. -/
def optStrOf (d : JObj) (f : String) : Option String :=
  match jGet d f with
  | some (.str s) => some s
  | _ => none

/-- `name.endswith(".json")`, via a structurally recursive suffix test. -/
def strEndsWith (s suffix : String) : Bool := suffix.data.isSuffixOf s.data

/-- `Path(name).stem` for the globbed `*.json` filenames: the name minus the
`.json` suffix, except that the pure dotfile `.json` has no suffix at all. -/
def fileStem (name : String) : String :=
  if name = ".json" then name else name.dropRight 5

/-- The dict literal appended to `terms` by `load_terms` (lines 145-161),
given the slug, the (normalized) file data, the term id and the mtime. -/
def mkTerm (slug : String) (d : JObj) (tid : String) (mtime : Nat) : Term :=
  { slug := slug
    name := strOf ((jGet d "name").getD .null)
    date := strOf ((jGet d "date").getD .null)
    description := strOf ((jGet d "description").getD .null)
    links :=
      match jGet d "links" with
      | some (.arr ls) =>
        ls.map (fun v =>
          match v with
          | .obj fs =>
            { url := strOf ((jGet fs "url").getD .null)
              label := strOf ((jGet fs "label").getD .null) }
          | _ => { url := "", label := "" })
      | _ => []
    sameAs :=
      match jGet d "sameAs" with
      | some (.arr xs) => xs.map strOf
      | _ => []
    aliases :=
      match jGet d "aliases" with
      | some (.arr xs) => xs.map strOf
      | _ => []
    termId := tid
    temporalCoverage := optStrOf d "temporalCoverage"
    startDate := optStrOf d "startDate"
    endDate := optStrOf d "endDate"
    dateISO := optStrOf d "dateISO"
    mtime := mtime }

instance : DecidableRel (fun (a b : SrcFile) => a.name ≤ b.name) :=
  fun a b => inferInstanceAs (Decidable (a.name ≤ b.name))

instance : IsTotal SrcFile (fun a b => a.name ≤ b.name) :=
  ⟨fun a b => le_total a.name b.name⟩

instance : IsTrans SrcFile (fun a b => a.name ≤ b.name) :=
  ⟨fun _ _ _ h1 h2 => le_trans h1 h2⟩

instance : DecidableRel (fun (a b : Term) => a.slug ≤ b.slug) :=
  fun a b => inferInstanceAs (Decidable (a.slug ≤ b.slug))

instance : IsTotal Term (fun a b => a.slug ≤ b.slug) :=
  ⟨fun a b => le_total a.slug b.slug⟩

instance : IsTrans Term (fun a b => a.slug ≤ b.slug) :=
  ⟨fun _ _ _ h1 h2 => le_trans h1 h2⟩

/-- `sorted(DATA_DIR.glob("*.json"))`: the same-directory paths compare by
filename (a stable sort of the directory listing). -/
def sortByName (files : List SrcFile) : List SrcFile :=
  files.insertionSort (fun a b => a.name ≤ b.name)

/-- `terms.sort(key=lambda t: t["slug"])` (Python's sort is stable). -/
def sortBySlug (terms : List Term) : List Term :=
  terms.insertionSort (fun a b => a.slug ≤ b.slug)

/-- The per-file loop body of `load_terms`, over the sorted globbed files.
`u` is the `uuid.uuid4()` supply and `k` counts the draws already used. -/
def loadTermsAux (u : Nat → String) : List SrcFile → Nat → Except String (List Term)
  | [], _ => .ok []
  | f :: rest, k =>
    match validateTermTypes f.data f.name with
    | .error e => .error e
    | .ok _ =>
      let r := normalizeTermFile f.data (u k)
      let t := mkTerm (fileStem f.name) r.2.1 (strOf r.1) f.mtime
      match loadTermsAux u rest (if r.2.2 then k + 1 else k) with
      | .error e => .error e
      | .ok ts => .ok (t :: ts)

/-- `load_terms()`: glob `*.json` in the data directory in sorted order,
validate and normalize each file, and return the terms sorted by slug.
(When a backfill write occurs the real script later reads the post-write
mtime of that same file; the claims that inspect mtimes are about runs
without backfills, where `f.mtime` is exact.) -/
def loadTerms (dir : List SrcFile) (u : Nat → String) : Except String (List Term) :=
  match loadTermsAux u (sortByName (dir.filter (fun f => strEndsWith f.name ".json"))) 0 with
  | .error e => .error e
  | .ok ts => .ok (sortBySlug ts)

/-- The alias map (a Python dict from alias slug to canonical slug). -/
abbrev AliasMap := List (String × String)

/-- `alias_map.get(alias)`. -/
def mapLookup : AliasMap → String → Option String
  | [], _ => none
  | (k, v) :: rest, key => if k = key then some v else mapLookup rest key

/-- `alias_map[alias] = slug`. -/
def mapInsert : AliasMap → String → String → AliasMap
  | [], key, v => [(key, v)]
  | (k, w) :: rest, key, v =>
    if k = key then (key, v) :: rest else (k, w) :: mapInsert rest key v

/-- The ambiguous-alias collision message of `build_alias_map`. -/
def ambiguityMsg (a e s : String) : String :=
  "alias collision: '" ++ a ++ "' maps to both '" ++ e ++ "' and '" ++ s ++ "'"

/-- The canonical-slug collision message of `build_alias_map`. -/
def canonMsg (a : String) : String :=
  "alias collision: '" ++ a ++ "' is also a canonical slug"

/-- The body of the inner loop of `build_alias_map`: reject an alias that is
a canonical slug, reject an alias already mapped to a different (truthy)
slug, otherwise record the mapping. -/
def insertAlias (canonical : List String) (slug : String) (m : AliasMap) (a : String) :
    Except String AliasMap :=
  if a ∈ canonical then .error (canonMsg a)
  else
    match mapLookup m a with
    | some existing =>
      if existing ≠ "" ∧ existing ≠ slug then .error (ambiguityMsg a existing slug)
      else .ok (mapInsert m a slug)
    | none => .ok (mapInsert m a slug)

/-- `for alias in t["aliases"]`. -/
def foldAliases (canonical : List String) (slug : String) :
    List String → AliasMap → Except String AliasMap
  | [], m => .ok m
  | a :: rest, m =>
    match insertAlias canonical slug m a with
    | .error e => .error e
    | .ok m1 => foldAliases canonical slug rest m1

/-- `for t in terms`. -/
def buildAliasFold (canonical : List String) : List Term → AliasMap → Except String AliasMap
  | [], m => .ok m
  | t :: rest, m =>
    match foldAliases canonical t.slug t.aliases m with
    | .error e => .error e
    | .ok m1 => buildAliasFold canonical rest m1

/-- `build_alias_map(terms)`. -/
def buildAliasMap (terms : List Term) : Except String AliasMap :=
  buildAliasFold (terms.map Term.slug) terms []

def canonicalBaseUrl : String := "https://www.mycal.net/terms/"

/-- `canonical_term_url(slug)`. -/
def canonicalTermUrl (slug : String) : String := canonicalBaseUrl ++ slug ++ "/"

/-- Python `pat in s` substring test, on the characters of `s`. -/
def subChars (pat : List Char) : List Char → Bool
  | [] => pat.isEmpty
  | c :: rest => pat.isPrefixOf (c :: rest) || subChars pat rest

/-- `pat in s` for strings. -/
def strContains (s pat : String) : Bool := subChars pat.data s.data

/-- The root domains excluded from `isDefinedIn` classification. -/
def noDefinedIn : List String :=
  ["https://blog.mycal.net/", "https://nobgp.com/", "https://anchorid.net/",
   "https://music.mycal.net/"]

/-- `apply_machine_dates(node, term)`: copy the truthy machine-readable date
fields onto the node (`dateISO` becomes `datePublished`). -/
def applyMachineDates (node : JObj) (term : Term) : JObj :=
  let n1 := match term.temporalCoverage with
    | some s => if s != "" then jSet node "temporalCoverage" (.str s) else node
    | none => node
  let n2 := match term.startDate with
    | some s => if s != "" then jSet n1 "startDate" (.str s) else n1
    | none => n1
  let n3 := match term.endDate with
    | some s => if s != "" then jSet n2 "endDate" (.str s) else n2
    | none => n2
  match term.dateISO with
  | some s => if s != "" then jSet n3 "datePublished" (.str s) else n3
  | none => n3

/-- `build_defined_term_node(term)`: the per-term JSON-LD node.  The
`isDefinedIn` classification looks only at `term["links"][0]["url"]`
(`links` is non-empty after validation; we take `headD` for totality). -/
def buildDefinedTermNode (term : Term) : JObj :=
  let node : JObj :=
    [("@type", .str "DefinedTerm"),
     ("@id", .str (canonicalBaseUrl ++ "#" ++ term.slug)),
     ("name", .str term.name),
     ("termCode", .str term.slug),
     ("description", .str term.description),
     ("inDefinedTermSet", .obj [("@id", .str (canonicalBaseUrl ++ "#termset"))]),
     ("url", .str (canonicalTermUrl term.slug)),
     ("creator", .obj [("@id", .str "https://blog.mycal.net/about/#mycal")]),
     ("dateCreated", .str term.date),
     ("identifier", .obj
       [("@type", .str "PropertyValue"),
        ("propertyID", .str "term-uuid"),
        ("value", .str term.termId)])]
  let firstUrl := (term.links.headD { url := "", label := "" }).url
  let node1 :=
    if firstUrl ∈ noDefinedIn then node
    else if strContains firstUrl "archive.mycal.net" then
      jSet node "isDefinedIn"
        (.obj [("@type", .str "DiscussionForumPosting"), ("@id", .str firstUrl)])
    else if strContains firstUrl "tag/" then
      jSet node "isDefinedIn"
        (.obj [("@type", .str "CreativeWorkSeries"), ("@id", .str firstUrl)])
    else
      jSet node "isDefinedIn"
        (.obj [("@type", .str "Article"), ("@id", .str (firstUrl ++ "#article"))])
  let node2 :=
    if term.sameAs.isEmpty then node1
    else jSet node1 "sameAs" (.arr (term.sameAs.map JValue.str))
  applyMachineDates node2 term

/-- The fixed `Person` node of the index graph. -/
def personNode : JValue := .obj
  [("@type", .str "Person"),
   ("@id", .str "https://blog.mycal.net/about/#mycal"),
   ("name", .str "Mike Johnson"),
   ("givenName", .str "Michael"),
   ("familyName", .str "Johnson"),
   ("alternateName", .arr [.str "Mycal", .str "Mike", .str "マイカル", .str "mycal"]),
   ("identifier", .arr
     [.obj [("@type", .str "PropertyValue"), ("propertyID", .str "canonical-uuid"),
            ("value", .str "urn:uuid:4ff7ed97-b78f-4ae6-9011-5af714ee241c")],
      .obj [("@type", .str "PropertyValue"), ("propertyID", .str "AnchorID"),
            ("value", .str "https://anchorid.net/resolve/4ff7ed97-b78f-4ae6-9011-5af714ee241c")]]),
   ("url", .str "https://www.mycal.net/"),
   ("sameAs", .arr
     [.str "https://anchorid.net/resolve/4ff7ed97-b78f-4ae6-9011-5af714ee241c",
      .str "https://www.mycal.net", .str "https://music.mycal.net",
      .str "https://blog.mycal.net", .str "https://archive.mycal.net",
      .str "https://github.com/lowerpower", .str "https://www.linkedin.com/in/mycal/",
      .str "https://x.com/mycal_1"])]

/-- The fixed `Organization` node. -/
def publisherNode : JValue := .obj
  [("@type", .str "Organization"),
   ("@id", .str "https://blog.mycal.net/#publisher"),
   ("name", .str "Mycal Labs"),
   ("identifier", .arr
     [.obj [("@type", .str "PropertyValue"), ("propertyID", .str "canonical-uuid"),
            ("value", .str "urn:uuid:bbf7372e-87d3-4098-8e60-f4e24d027a04")],
      .obj [("@type", .str "PropertyValue"), ("propertyID", .str "AnchorID"),
            ("value", .str "https://anchorid.net/resolve/bbf7372e-87d3-4098-8e60-f4e24d027a04")]]),
   ("url", .str "https://blog.mycal.net/"),
   ("founder", .obj [("@id", .str "https://blog.mycal.net/about/#mycal")]),
   ("sameAs", .arr [.str "https://anchorid.net/resolve/bbf7372e-87d3-4098-8e60-f4e24d027a04"])]

/-- The fixed `WebSite` node. -/
def websiteNode : JValue := .obj
  [("@type", .str "WebSite"),
   ("@id", .str "https://www.mycal.net/#website"),
   ("name", .str "Mycal.net"),
   ("url", .str "https://www.mycal.net/"),
   ("publisher", .obj [("@id", .str "https://blog.mycal.net/#publisher")]),
   ("mainEntity", .obj [("@id", .str "https://blog.mycal.net/about/#mycal")])]

/-- The fixed index `WebPage` node. -/
def indexWebPageNode : JValue := .obj
  [("@type", .str "WebPage"),
   ("@id", .str (canonicalBaseUrl ++ "#webpage")),
   ("url", .str canonicalBaseUrl),
   ("name", .str "Mycal Terms — A Lexicon of Original Concepts"),
   ("description", .str "Original terms and conceptual frameworks coined by Mike Johnson (Mycal), spanning cronofuturist philosophy, AI infrastructure, the Substrate War, and temporal methodology."),
   ("isPartOf", .obj [("@id", .str "https://www.mycal.net/#website")]),
   ("about", .obj [("@id", .str (canonicalBaseUrl ++ "#termset"))]),
   ("author", .obj [("@id", .str "https://blog.mycal.net/about/#mycal")]),
   ("publisher", .obj [("@id", .str "https://blog.mycal.net/#publisher")]),
   ("dateCreated", .str "2026-02-22T00:00:00-08:00"),
   ("dateModified", .str "2026-02-22T00:00:00-08:00"),
   ("inLanguage", .str "en-US"),
   ("license", .str "https://creativecommons.org/licenses/by-sa/4.0/")]

/-- The `DefinedTermSet` node, listing one `@id` reference per term. -/
def termSetNode (terms : List Term) : JValue := .obj
  [("@type", .str "DefinedTermSet"),
   ("@id", .str (canonicalBaseUrl ++ "#termset")),
   ("name", .str "Mycal Terms"),
   ("description", .str "Original terms and conceptual frameworks coined by Mike Johnson (Mycal), spanning cronofuturist philosophy, AI infrastructure, the Substrate War, evaluation methodology, and temporal methodology."),
   ("url", .str canonicalBaseUrl),
   ("creator", .obj [("@id", .str "https://blog.mycal.net/about/#mycal")]),
   ("publisher", .obj [("@id", .str "https://blog.mycal.net/#publisher")]),
   ("inLanguage", .str "en-US"),
   ("license", .str "https://creativecommons.org/licenses/by-sa/4.0/"),
   ("hasDefinedTerm", .arr
     (terms.map (fun t => .obj [("@id", .str (canonicalBaseUrl ++ "#" ++ t.slug))])))]

/-- The `BreadcrumbList` node. -/
def breadcrumbNode : JValue := .obj
  [("@type", .str "BreadcrumbList"),
   ("itemListElement", .arr
     [.obj [("@type", .str "ListItem"), ("position", .num 1), ("name", .str "Home"),
            ("item", .str "https://www.mycal.net/")],
      .obj [("@type", .str "ListItem"), ("position", .num 2), ("name", .str "Mycal Terms"),
            ("item", .str canonicalBaseUrl)]])]

/-- `build_jsonld(terms)` as a JSON value (serialization happens later). -/
def buildJsonld (terms : List Term) : JValue := .obj
  [("@context", .str "https://schema.org"),
   ("@graph", .arr
     ([personNode, publisherNode, websiteNode, indexWebPageNode, termSetNode terms] ++
      terms.map (fun t => .obj (buildDefinedTermNode t)) ++ [breadcrumbNode]))]

/-- One escaped character of a JSON string literal. -/
def jsonEscChar (c : Char) : String :=
  if c = '"' then "\\\""
  else if c = '\\' then "\\\\"
  else if c = '\n' then "\\n"
  else if c = '\t' then "\\t"
  else if c = '\r' then "\\r"
  else if c.toNat < 32 then
    "\\u00" ++ String.singleton (Nat.digitChar (c.toNat / 16)) ++
      String.singleton (Nat.digitChar (c.toNat % 16))
  else String.singleton c

/-- A JSON string literal (`ensure_ascii=False`). -/
def jsonQuote (s : String) : String :=
  "\"" ++ String.join (s.data.map jsonEscChar) ++ "\""

mutual
/-- `json.dumps` of a value (whitespace/indentation elided: the script uses
both `indent=2` and compact separators; only the content matters here). -/
def jsonStr : JValue → String
  | .null => "null"
  | .bool b => cond b "true" "false"
  | .num n => toString n
  | .str s => jsonQuote s
  | .arr xs => "[" ++ jsonStrArr xs ++ "]"
  | .obj fs => "\x7b" ++ jsonStrObj fs ++ "\x7d"

/-- Comma-separated serialization of array elements. -/
def jsonStrArr : List JValue → String
  | [] => ""
  | [x] => jsonStr x
  | x :: y :: rest => jsonStr x ++ "," ++ jsonStrArr (y :: rest)

/-- Comma-separated serialization of object entries. -/
def jsonStrObj : List (String × JValue) → String
  | [] => ""
  | [(k, v)] => jsonQuote k ++ ":" ++ jsonStr v
  | (k, v) :: e :: rest => jsonQuote k ++ ":" ++ jsonStr v ++ "," ++ jsonStrObj (e :: rest)
end

/-- `html.escape` (with quotes). -/
def htmlEscape (s : String) : String :=
  String.join (s.data.map (fun c =>
    if c = '&' then "&amp;"
    else if c = '<' then "&lt;"
    else if c = '>' then "&gt;"
    else if c = '"' then "&quot;"
    else if c = '\'' then "&#x27;"
    else String.singleton c))

/-- `short_description(text, max_len)`: whitespace-squashed text, truncated
with a trailing ellipsis when longer than `maxLen` characters. -/
def shortDescription (text : String) (maxLen : Nat) : String :=
  let clean := String.intercalate " " ((text.split isPySpace).filter (fun w => w ≠ ""))
  if clean.length ≤ maxLen then clean
  else
    let cut := clean.take (maxLen - 1)
    String.mk ((cut.data.reverse.dropWhile isPySpace).reverse) ++ "…"

/-- One `<a>` link of an index entry (`data-umami-event` carries slug+index). -/
def buildLinkHtml (slug : String) (i : Nat) (l : Link) : String :=
  "          <a href=\"" ++ htmlEscape l.url ++ "\" class=\"term-link\" data-umami-event=\"term-" ++
    slug ++ "-" ++ toString i ++ "\">" ++ htmlEscape l.label ++ "</a>"

/-- One `term-entry` div of the index page. -/
def buildTermEntry (t : Term) : String :=
  "      <div class=\"term-entry\" id=\"" ++ t.slug ++ "\">\n" ++
  "        <div class=\"term-name\">" ++ htmlEscape t.name ++ "</div>\n" ++
  "        <div class=\"term-meta\"><span>First used: " ++ htmlEscape t.date ++ "</span></div>\n" ++
  "        <p class=\"term-definition\">" ++ htmlEscape t.description ++ "</p>\n" ++
  "        <div class=\"term-links\">\n" ++
  String.intercalate "\n" (t.links.enum.map (fun p => buildLinkHtml t.slug p.1 p.2)) ++
  "\n        </div>\n      </div>"

/-- `build_html_entries(terms)`. -/
def buildHtmlEntries (terms : List Term) : String :=
  String.intercalate "\n\n" (terms.map buildTermEntry)

/-- `json.dumps(alias_map, separators=(",", ":"))`: the compact JSON object
embedded in the index page's client script, in insertion order. -/
def aliasMapJsonStr (m : AliasMap) : String :=
  "\x7b" ++ String.intercalate ","
    (m.map (fun p => jsonQuote p.1 ++ ":" ++ jsonQuote p.2)) ++ "\x7d"

/- The fixed HTML/CSS/client-script text of the page templates is
represented by opaque constant strings (abbreviated): it contains no
interpolated data, so its exact text affects none of the verified
properties.  The interpolated fragments (term count, JSON-LD, entries,
alias map, escaped fields, URLs) are kept faithfully. -/

def pageHead1 : String := "<!DOCTYPE html>html-head-meta content=\"... coined by Mike Johnson (Mycal) — "
def pageHead2 : String := " original frameworks ...\" favicon-analytics-css <script type=\"application/ld+json\">\n"
def pageMid1 : String := "\n</script></head><body>header back-link h1 subtitle <p class=\"intro\">\n        "
def pageMid2 : String := " terms and frameworks that emerged ...</p> search-box <main id=\"terms-list\">\n\n"
def pageTail1 : String := "\n\n      no-results footer <script> client search-and-alias-hash script; const aliasMap = "
def pageTail2 : String := ";</script></body></html>"

/-- `build_page(terms, jsonld, html_entries, alias_map)`: the index page,
interpolating `len(terms)` (twice), the JSON-LD graph, the entries and the
compact alias-map JSON into the fixed template. -/
def buildPage (terms : List Term) (jsonld htmlEntries : String) (aliasMap : AliasMap) : String :=
  pageHead1 ++ toString terms.length ++ pageHead2 ++ jsonld ++ pageMid1 ++
    toString terms.length ++ pageMid2 ++ htmlEntries ++ pageTail1 ++
    aliasMapJsonStr aliasMap ++ pageTail2

/-- `build_term_page_jsonld(term)`: the per-term page graph (a `WebPage`
node plus the term's defined-term node). -/
def buildTermPageJsonld (term : Term) : JValue := .obj
  [("@context", .str "https://schema.org"),
   ("@graph", .arr
     [.obj
       [("@type", .str "WebPage"),
        ("@id", .str (canonicalTermUrl term.slug ++ "#webpage")),
        ("url", .str (canonicalTermUrl term.slug)),
        ("name", .str (term.name ++ " — Mycal Terms")),
        ("description", .str (shortDescription term.description 200)),
        ("isPartOf", .obj [("@id", .str "https://www.mycal.net/#website")]),
        ("mainEntity", .obj [("@id", .str (canonicalBaseUrl ++ "#" ++ term.slug))]),
        ("author", .obj [("@id", .str "https://blog.mycal.net/about/#mycal")]),
        ("publisher", .obj [("@id", .str "https://blog.mycal.net/#publisher")]),
        ("inLanguage", .str "en-US"),
        ("license", .str "https://creativecommons.org/licenses/by-sa/4.0/")],
      .obj (buildDefinedTermNode term)])]

def termPage1 : String := "<!DOCTYPE html>term-page head <title>Mycal Term — "
def termPage2 : String := "</title><meta name=\"description\" content=\""
def termPage3 : String := "\"><link rel=\"canonical\" href=\""
def termPage4 : String := "\"> css <script type=\"application/ld+json\">\n"
def termPage5 : String := "\n  </script></head><body> back-link <h1>"
def termPage6 : String := "</h1><p class=\"meta\">First used: "
def termPage7 : String := "</p><p class=\"definition\">"
def termPage8 : String := "</p><div class=\"term-links\">\n"
def termPage9 : String := "\n    </div></body></html>"

/-- `build_term_page(term)` with the fixed template text abbreviated. -/
def buildTermPage (term : Term) : String :=
  termPage1 ++ htmlEscape term.name ++ termPage2 ++
    htmlEscape (shortDescription term.description 160) ++ termPage3 ++
    canonicalTermUrl term.slug ++ termPage4 ++ jsonStr (buildTermPageJsonld term) ++
    termPage5 ++ htmlEscape term.name ++ termPage6 ++ htmlEscape term.date ++
    termPage7 ++ htmlEscape term.description ++ termPage8 ++
    String.intercalate "\n"
      (term.links.map (fun l =>
        "          <a href=\"" ++ htmlEscape l.url ++ "\" class=\"term-link\">" ++
          htmlEscape l.label ++ "</a>")) ++ termPage9

def aliasPage1 : String := "<!DOCTYPE html>redirect-page <title>"
def aliasPage2 : String := "</title><link rel=\"canonical\" href=\""
def aliasPage3 : String := "\"><meta http-equiv=\"refresh\" content=\"0; url="
def aliasPage4 : String := "\"><script>location.replace("
def aliasPage5 : String := ");</script></head><body><p>Redirecting to <a href=\""
def aliasPage6 : String := "\">"
def aliasPage7 : String := "</a>.</p></body></html>"

/-- `build_alias_redirect_page(alias, canonical_slug)` with the fixed
template text abbreviated (the alias argument is unused by the source
function, too: the page only mentions the canonical URL). -/
def buildAliasRedirectPage (_aliasSlug canonicalSlug : String) : String :=
  let canonical := canonicalTermUrl canonicalSlug
  aliasPage1 ++ htmlEscape ("Redirecting to " ++ canonicalSlug) ++ aliasPage2 ++
    canonical ++ aliasPage3 ++ canonical ++ aliasPage4 ++ jsonQuote canonical ++
    aliasPage5 ++ canonical ++ aliasPage6 ++ canonical ++ aliasPage7

/-- The per-term object written by `export_terms`: the exported fields, the
added `canonicalUrl`, and each optional machine-date field only when truthy. -/
def exportTermJson (t : Term) : JObj :=
  [("slug", .str t.slug),
   ("name", .str t.name),
   ("date", .str t.date),
   ("description", .str t.description),
   ("links", .arr (t.links.map (fun l => .obj [("url", .str l.url), ("label", .str l.label)]))),
   ("sameAs", .arr (t.sameAs.map JValue.str)),
   ("aliases", .arr (t.aliases.map JValue.str)),
   ("termId", .str t.termId),
   ("canonicalUrl", .str (canonicalTermUrl t.slug))] ++
  (match t.temporalCoverage with
   | some s => if s != "" then [("temporalCoverage", JValue.str s)] else []
   | none => []) ++
  (match t.startDate with
   | some s => if s != "" then [("startDate", JValue.str s)] else []
   | none => []) ++
  (match t.endDate with
   | some s => if s != "" then [("endDate", JValue.str s)] else []
   | none => []) ++
  (match t.dateISO with
   | some s => if s != "" then [("dateISO", JValue.str s)] else []
   | none => [])

/-- The JSON list written to `terms.json` by `export_terms` (one object per
term, in order).  The NDJSON file carries the same objects line by line. -/
def exportTerms (ts : List Term) : JValue :=
  .arr (ts.map (fun t => .obj (exportTermJson t)))

/-- The in-memory normalized record of `load_terms` as a JSON-like object
(optional fields that are absent hold `None`/null; `source_mtime` is the
datetime, rendered here as its epoch seconds). -/
def termRecordJson (t : Term) : JObj :=
  [("slug", .str t.slug),
   ("name", .str t.name),
   ("date", .str t.date),
   ("description", .str t.description),
   ("links", .arr (t.links.map (fun l => .obj [("url", .str l.url), ("label", .str l.label)]))),
   ("sameAs", .arr (t.sameAs.map JValue.str)),
   ("aliases", .arr (t.aliases.map JValue.str)),
   ("termId", .str t.termId),
   ("temporalCoverage", match t.temporalCoverage with | some s => .str s | none => .null),
   ("startDate", match t.startDate with | some s => .str s | none => .null),
   ("endDate", match t.endDate with | some s => .str s | none => .null),
   ("dateISO", match t.dateISO with | some s => .str s | none => .null),
   ("source_mtime", .num t.mtime)]

/-- `del`-style removal of one key of an object. -/
def jErase (m : JObj) (key : String) : JObj := m.filter (fun p => p.1 ≠ key)

/-- Drop the entries whose value is null (the fields the exporter omits for
non-truthy values). -/
def jDropNulls (m : JObj) : JObj :=
  m.filter (fun p => match p.2 with | .null => false | _ => true)

/-- Civil date (year, month, day) of a day count since 1970-01-01
(the Gregorian calendar arithmetic behind `date.isoformat()`). -/
def civilFromDays (z0 : Nat) : Nat × Nat × Nat :=
  let z := z0 + 719468
  let era := z / 146097
  let doe := z % 146097
  let yoe := (doe - doe / 1460 + doe / 36524 - doe / 146097) / 365
  let y := yoe + era * 400
  let doy := doe - (365 * yoe + yoe / 4 - yoe / 100)
  let mp := (5 * doy + 2) / 153
  let d := doy - (153 * mp + 2) / 5 + 1
  let m := if mp < 10 then mp + 3 else mp - 9
  (if m ≤ 2 then y + 1 else y, m, d)

/-- Zero-padded decimal of width 2. -/
def pad2 (n : Nat) : String := if n < 10 then "0" ++ toString n else toString n

/-- Zero-padded decimal of width 4. -/
def pad4 (n : Nat) : String :=
  if n < 10 then "000" ++ toString n
  else if n < 100 then "00" ++ toString n
  else if n < 1000 then "0" ++ toString n
  else toString n

/-- `datetime.fromtimestamp(secs, tz=utc).date().isoformat()`. -/
def isoDateOfEpoch (secs : Nat) : String :=
  let c := civilFromDays (secs / 86400)
  pad4 c.1 ++ "-" ++ pad2 c.2.1 ++ "-" ++ pad2 c.2.2

/-- `write_sitemap_terms(terms)`: the sitemap text; the index entry carries
the newest source mtime, each term entry its own source mtime. -/
def sitemapTerms (terms : List Term) : String :=
  let indexLastmod := isoDateOfEpoch (terms.foldl (fun a t => max a t.mtime) 0)
  String.intercalate "\n"
    (["<?xml version=\"1.0\" encoding=\"UTF-8\"?>",
      "<urlset xmlns=\"http://www.sitemaps.org/schemas/sitemap/0.9\">",
      "  <url>",
      "    <loc>" ++ canonicalBaseUrl ++ "</loc>",
      "    <lastmod>" ++ indexLastmod ++ "</lastmod>",
      "  </url>"] ++
     (terms.flatMap (fun t =>
       ["  <url>",
        "    <loc>" ++ canonicalTermUrl t.slug ++ "</loc>",
        "    <lastmod>" ++ isoDateOfEpoch t.mtime ++ "</lastmod>",
        "  </url>"])) ++
     ["</urlset>"]) ++ "\n"

/-- All files written by a successful run. -/
structure SiteOutput where
  indexHtml : String
  termPages : List (String × String)
  aliasPages : List (String × String)
  termsJson : JValue
  termsNdjson : List JValue
  sitemapXml : String

/-- `main()`: load, require at least one term, build the alias map, render
everything, and only then produce the outputs.  Any `fail()` (validation,
collision, no files) is an `Except.error`: no output is produced. -/
def buildSite (dir : List SrcFile) (u : Nat → String) : Except String SiteOutput :=
  match loadTerms dir u with
  | .error e => .error e
  | .ok terms =>
    if terms.isEmpty then .error "no term files found in data/"
    else
      match buildAliasMap terms with
      | .error e => .error e
      | .ok aliasMap =>
        .ok
          { indexHtml :=
              buildPage terms (jsonStr (buildJsonld terms)) (buildHtmlEntries terms) aliasMap
            termPages := terms.map (fun t => (t.slug, buildTermPage t))
            aliasPages := aliasMap.map (fun p => (p.1, buildAliasRedirectPage p.1 p.2))
            termsJson := exportTerms terms
            termsNdjson := terms.map (fun t => .obj (exportTermJson t))
            sitemapXml := sitemapTerms terms }

/-- `True` exactly when a run aborted (`sys.exit(1)`). -/
def isError {ε α : Type} : Except ε α → Bool
  | .error _ => true
  | .ok _ => false

/-- Number of term pages of a run's output (0 for an aborted run). -/
def siteTermCount : Except String SiteOutput → Nat
  | .ok o => o.termPages.length
  | .error _ => 0

/-! ### Basic lemmas about the dict operations -/

theorem jGet_jSet_self (d : JObj) (k : String) (v : JValue) :
    jGet (jSet d k v) k = some v := by
  induction d with
  | nil => simp [jSet, jGet]
  | cons p rest ih =>
    by_cases h : p.1 = k
    · simp [jSet, jGet, h]
    · cases p; simp_all [jSet, jGet]

theorem jGet_jSet_ne (d : JObj) (k k' : String) (v : JValue) (h : k' ≠ k) :
    jGet (jSet d k' v) k = jGet d k := by
  induction d with
  | nil => simp [jSet, jGet, h]
  | cons p rest ih =>
    cases p with
    | mk k0 v0 =>
      by_cases hp : k0 = k'
      · subst hp; simp [jSet, jGet, h]
      · simp only [jSet, hp, if_false, jGet]
        by_cases hk : k0 = k
        · simp [hk]
        · simp [hk, ih]

theorem mapLookup_mapInsert (m : AliasMap) (k key v : String) :
    mapLookup (mapInsert m k v) key = if k = key then some v else mapLookup m key := by
  induction m with
  | nil => simp [mapInsert, mapLookup]
  | cons p rest ih =>
    cases p with
    | mk k0 v0 =>
      by_cases hp : k0 = k
      · subst hp
        by_cases hk : k0 = key <;> simp [mapInsert, mapLookup, hk]
      · simp only [mapInsert, hp, if_false, mapLookup]
        by_cases hk0 : k0 = key
        · subst hk0
          have hkk : ¬ k = k0 := fun hh => hp hh.symm
          simp [mapLookup, hkk]
        · simp [mapLookup, hk0, ih]

theorem vSeq_ok_iff (a b : Except String Unit) :
    vSeq a b = .ok () ↔ a = .ok () ∧ b = .ok () := by
  cases a with
  | ok u => cases u; simp [vSeq]
  | error e => simp [vSeq]

theorem vSeq_error_elim (a b : Except String Unit) (m : String) :
    vSeq a b = .error m → a = .error m ∨ (a = .ok () ∧ b = .error m) := by
  cases a with
  | ok u => cases u; intro h; exact Or.inr ⟨rfl, h⟩
  | error e => intro h; cases h; exact Or.inl rfl

/-- Boolean string-prefix test used to state the error-message properties. -/
def strPrefix (p s : String) : Bool := p.data.isPrefixOf s.data

theorem strPrefix_append (p t : String) : strPrefix p (p ++ t) = true := by
  unfold strPrefix
  rw [String.data_append, List.isPrefixOf_iff_prefix]
  exact List.prefix_append p.data t.data

theorem urn_append_ne_empty (u : String) : ("urn:uuid:" ++ u) ≠ "" := by
  intro h
  have h2 := congrArg String.data h
  rw [String.data_append] at h2
  simp at h2

/-! ### Claim C1: termId assignment is idempotent -/

theorem termIdMatch_urn (u : String) (h : isUuidShape u = true) :
    termIdMatch ("urn:uuid:" ++ u) = true := by
  have hd : ("urn:uuid:" ++ u).data =
      'u' :: 'r' :: 'n' :: ':' :: 'u' :: 'u' :: 'i' :: 'd' :: ':' :: u.data := by
    rw [String.data_append]; rfl
  unfold termIdMatch
  rw [hd]
  simp only [termIdCore, Bool.or_eq_true]
  exact Or.inl (by exact h)

/-- **C1.** `normalize_term_file` is idempotent: on a term file lacking a
`termId` one run returns (and stores into the file data, rewriting the
file) a fresh `urn:uuid:` identifier matching the `TERM_ID_RE` shape, and a
second run on the resulting data returns that same identifier without
rewriting; on data that already contains a (non-empty, hence truthy)
`termId` it returns that identifier unchanged and does not rewrite the
file. -/
theorem c1_termId_idempotent (d : JObj) (u u2 : String) :
    (jGet d "termId" = none → isUuidShape u = true →
      normalizeTermFile d u =
        (.str ("urn:uuid:" ++ u), jSet d "termId" (.str ("urn:uuid:" ++ u)), true) ∧
      termIdMatch ("urn:uuid:" ++ u) = true ∧
      normalizeTermFile (jSet d "termId" (.str ("urn:uuid:" ++ u))) u2 =
        (.str ("urn:uuid:" ++ u), jSet d "termId" (.str ("urn:uuid:" ++ u)), false)) ∧
    (∀ s, jGet d "termId" = some (.str s) → s ≠ "" →
      normalizeTermFile d u = (.str s, d, false)) := by
  constructor
  · intro hnone hu
    refine ⟨by simp [normalizeTermFile, hnone], termIdMatch_urn u hu, ?_⟩
    have hget := jGet_jSet_self d "termId" (.str ("urn:uuid:" ++ u))
    have htr : jTruthy (.str ("urn:uuid:" ++ u)) = true := by
      simp [jTruthy, urn_append_ne_empty u]
    simp [normalizeTermFile, hget, htr]
  · intro s hsome hs
    have htr : jTruthy (.str s) = true := by simp [jTruthy, hs]
    simp [normalizeTermFile, hsome, htr]

/-- Witness for C1 at concrete inputs: a file without `termId` gets
`urn:uuid:<fresh>` written back, and a file with a termId is returned
unchanged without a rewrite. -/
theorem c1_termId_idempotent_witness :
    normalizeTermFile [("name", JValue.str "Alpha")] "00000000-0000-4000-8000-000000000000" =
      (.str ("urn:uuid:" ++ "00000000-0000-4000-8000-000000000000"),
       jSet [("name", JValue.str "Alpha")] "termId"
         (.str ("urn:uuid:" ++ "00000000-0000-4000-8000-000000000000")), true) ∧
    termIdMatch ("urn:uuid:" ++ "00000000-0000-4000-8000-000000000000") = true ∧
    normalizeTermFile [("termId", JValue.str "urn:uuid:4ff7ed97-b78f-4ae6-9011-5af714ee241c")]
        "ignored" =
      (.str "urn:uuid:4ff7ed97-b78f-4ae6-9011-5af714ee241c",
       [("termId", JValue.str "urn:uuid:4ff7ed97-b78f-4ae6-9011-5af714ee241c")], false) := by
  have h1 := c1_termId_idempotent [("name", JValue.str "Alpha")]
    "00000000-0000-4000-8000-000000000000" "zz"
  have h2 := c1_termId_idempotent
    [("termId", JValue.str "urn:uuid:4ff7ed97-b78f-4ae6-9011-5af714ee241c")] "ignored" "zz"
  exact ⟨(h1.1 rfl (by decide)).1, (h1.1 rfl (by decide)).2.1,
    h2.2 "urn:uuid:4ff7ed97-b78f-4ae6-9011-5af714ee241c" rfl (by decide)⟩

/-! ### Claim C2: an alias equal to a canonical slug aborts the build -/

theorem strPrefix_append_right (p s t : String) (h : strPrefix p s = true) :
    strPrefix p (s ++ t) = true := by
  unfold strPrefix at *
  rw [String.data_append, List.isPrefixOf_iff_prefix] at *
  exact h.trans (List.prefix_append s.data t.data)

theorem insertAlias_ok_not_canon (c : List String) (s : String) (m m1 : AliasMap)
    (a : String) (h : insertAlias c s m a = .ok m1) : a ∉ c := by
  intro hc
  unfold insertAlias at h
  rw [if_pos hc] at h
  cases h

theorem insertAlias_error_prefix (c : List String) (s : String) (m : AliasMap)
    (a msg : String) (h : insertAlias c s m a = .error msg) :
    strPrefix "alias collision: '" msg = true := by
  unfold insertAlias at h
  by_cases hc : a ∈ c
  · rw [if_pos hc] at h
    cases h
    exact strPrefix_append_right _ _ _ (strPrefix_append _ _)
  · rw [if_neg hc] at h
    cases hl : mapLookup m a with
    | none => rw [hl] at h; cases h
    | some e =>
      rw [hl] at h
      have h2 : (if e ≠ "" ∧ e ≠ s then Except.error (ambiguityMsg a e s)
          else Except.ok (mapInsert m a s)) = Except.error msg := h
      by_cases hcond : e ≠ "" ∧ e ≠ s
      · rw [if_pos hcond] at h2
        cases h2
        unfold ambiguityMsg
        exact strPrefix_append_right _ _ _ (strPrefix_append_right _ _ _
          (strPrefix_append_right _ _ _ (strPrefix_append_right _ _ _
            (strPrefix_append_right _ _ _ (strPrefix_append _ _)))))
      · rw [if_neg hcond] at h2
        cases h2

theorem foldAliases_ok_not_canon (c : List String) (s : String) (xs : List String)
    (m m' : AliasMap) (h : foldAliases c s xs m = .ok m') : ∀ a ∈ xs, a ∉ c := by
  induction xs generalizing m with
  | nil => intro a ha; simp at ha
  | cons a0 rest ih =>
    intro a ha
    cases hins : insertAlias c s m a0 with
    | error e =>
      simp only [foldAliases, hins] at h
      exact Except.noConfusion h
    | ok m1 =>
      simp only [foldAliases, hins] at h
      rcases List.mem_cons.mp ha with rfl | hmem
      · exact insertAlias_ok_not_canon c s m m1 a hins
      · exact ih m1 h a hmem

theorem foldAliases_error_prefix (c : List String) (s : String) (xs : List String)
    (m : AliasMap) (msg : String) (h : foldAliases c s xs m = .error msg) :
    strPrefix "alias collision: '" msg = true := by
  induction xs generalizing m with
  | nil =>
    simp only [foldAliases] at h
    exact Except.noConfusion h
  | cons a0 rest ih =>
    cases hins : insertAlias c s m a0 with
    | error e =>
      simp only [foldAliases, hins] at h
      cases h
      exact insertAlias_error_prefix c s m a0 msg hins
    | ok m1 =>
      simp only [foldAliases, hins] at h
      exact ih m1 h

theorem buildAliasFold_ok_not_canon (c : List String) (L : List Term)
    (m m' : AliasMap) (h : buildAliasFold c L m = .ok m') :
    ∀ t ∈ L, ∀ a ∈ t.aliases, a ∉ c := by
  induction L generalizing m with
  | nil => intro t ht; simp at ht
  | cons t0 rest ih =>
    intro t ht a ha
    cases hf : foldAliases c t0.slug t0.aliases m with
    | error e =>
      simp only [buildAliasFold, hf] at h
      exact Except.noConfusion h
    | ok m1 =>
      simp only [buildAliasFold, hf] at h
      rcases List.mem_cons.mp ht with rfl | hmem
      · exact foldAliases_ok_not_canon c t.slug t.aliases m m1 hf a ha
      · exact ih m1 h t hmem a ha

theorem buildAliasFold_error_prefix (c : List String) (L : List Term)
    (m : AliasMap) (msg : String) (h : buildAliasFold c L m = .error msg) :
    strPrefix "alias collision: '" msg = true := by
  induction L generalizing m with
  | nil =>
    simp only [buildAliasFold] at h
    exact Except.noConfusion h
  | cons t0 rest ih =>
    cases hf : foldAliases c t0.slug t0.aliases m with
    | error e =>
      simp only [buildAliasFold, hf] at h
      cases h
      exact foldAliases_error_prefix c t0.slug t0.aliases m msg hf
    | ok m1 =>
      simp only [buildAliasFold, hf] at h
      exact ih m1 h

/-- **C2.** If any term declares an alias equal to the slug of any term in
the list (its own included), `build_alias_map` fails with a collision
error — the message names an alias between quotes after the fixed
`alias collision: '` prefix — and any run whose loaded term list it is
aborts, producing no output files. -/
theorem c2_alias_slug_collision (terms : List Term)
    (h : ∃ t ∈ terms, ∃ a ∈ t.aliases, a ∈ terms.map Term.slug) :
    (∃ msg, buildAliasMap terms = .error msg ∧ strPrefix "alias collision: '" msg = true) ∧
    (∀ dir u, loadTerms dir u = .ok terms → isError (buildSite dir u) = true) := by
  have herr : ∃ msg, buildAliasMap terms = .error msg := by
    cases hb : buildAliasMap terms with
    | error e => exact ⟨e, rfl⟩
    | ok m =>
      obtain ⟨t, ht, a, ha, hc⟩ := h
      have hb' : buildAliasFold (terms.map Term.slug) terms [] = .ok m := hb
      exact absurd hc (buildAliasFold_ok_not_canon _ _ _ _ hb' t ht a ha)
  obtain ⟨msg, hmsg⟩ := herr
  have hmsg' : buildAliasFold (terms.map Term.slug) terms [] = .error msg := hmsg
  refine ⟨⟨msg, hmsg, buildAliasFold_error_prefix _ _ _ _ hmsg'⟩, ?_⟩
  intro dir u hload
  unfold buildSite
  rw [hload]
  by_cases hemp : terms.isEmpty
  · simp [hemp, isError]
  · simp [hemp, hmsg, isError]

/-- Concrete term list and directory used in several witnesses: one valid
term file whose slug is `a` and which declares the alias `a` itself. -/
def exFileSelfAlias : SrcFile :=
  { name := "a.json"
    data :=
      [("name", .str "Alpha"), ("date", .str "2025"), ("description", .str "First"),
       ("links", .arr [.obj [("url", .str "https://example.com/a"), ("label", .str "A")]]),
       ("aliases", .arr [.str "a"]),
       ("termId", .str "urn:uuid:4ff7ed97-b78f-4ae6-9011-5af714ee241c")]
    mtime := 0 }

/-- The term record `load_terms` produces for `exFileSelfAlias`. -/
def exTermSelfAlias : Term :=
  { slug := "a", name := "Alpha", date := "2025", description := "First"
    links := [{ url := "https://example.com/a", label := "A" }]
    sameAs := [], aliases := ["a"]
    termId := "urn:uuid:4ff7ed97-b78f-4ae6-9011-5af714ee241c"
    temporalCoverage := none, startDate := none, endDate := none, dateISO := none
    mtime := 0 }

/-- A uuid supply for witnesses (never drawn in the runs that use it). -/
def exSupply : Nat → String := fun _ => "00000000-0000-4000-8000-000000000000"

/-- Witness for C2: the self-alias list makes `build_alias_map` fail and
the whole run abort. -/
theorem c2_alias_slug_collision_witness :
    isError (buildAliasMap [exTermSelfAlias]) = true ∧
    isError (buildSite [exFileSelfAlias] exSupply) = true := by
  have h := c2_alias_slug_collision [exTermSelfAlias] (by decide)
  constructor
  · obtain ⟨msg, hmsg, _⟩ := h.1
    rw [hmsg]; rfl
  · exact h.2 [exFileSelfAlias] exSupply rfl

/-! ### Claim C3: shared aliases, collisions and the success case -/

theorem insertAlias_ok_eq (c : List String) (s : String) (m m1 : AliasMap) (a : String)
    (h : insertAlias c s m a = .ok m1) : m1 = mapInsert m a s := by
  unfold insertAlias at h
  by_cases hc : a ∈ c
  · rw [if_pos hc] at h; cases h
  · rw [if_neg hc] at h
    cases hl : mapLookup m a with
    | none => rw [hl] at h; cases h; rfl
    | some e =>
      rw [hl] at h
      have h2 : (if e ≠ "" ∧ e ≠ s then Except.error (ambiguityMsg a e s)
          else Except.ok (mapInsert m a s)) = Except.ok m1 := h
      by_cases hcond : e ≠ "" ∧ e ≠ s
      · rw [if_pos hcond] at h2; cases h2
      · rw [if_neg hcond] at h2; cases h2; rfl

theorem insertAlias_ok_existing (c : List String) (s : String) (m m1 : AliasMap) (a : String)
    (h : insertAlias c s m a = .ok m1) :
    ∀ e, mapLookup m a = some e → e = "" ∨ e = s := by
  intro e hl
  unfold insertAlias at h
  by_cases hc : a ∈ c
  · rw [if_pos hc] at h; cases h
  · rw [if_neg hc, hl] at h
    have h2 : (if e ≠ "" ∧ e ≠ s then Except.error (ambiguityMsg a e s)
        else Except.ok (mapInsert m a s)) = Except.ok m1 := h
    by_cases hcond : e ≠ "" ∧ e ≠ s
    · rw [if_pos hcond] at h2; cases h2
    · rcases not_and_or.mp hcond with h1 | h1
      · exact Or.inl (not_not.mp h1)
      · exact Or.inr (not_not.mp h1)

/-- When an alias `a` is already bound to a conflicting non-empty slug,
`insertAlias` at `a` cannot succeed. -/
theorem insertAlias_conflict_error (c : List String) (s : String) (m : AliasMap)
    (a v : String) (hl : mapLookup m a = some v) (hv : v ≠ "") (hvs : v ≠ s) :
    ∃ msg, insertAlias c s m a = .error msg := by
  cases hins : insertAlias c s m a with
  | error e => exact ⟨e, rfl⟩
  | ok m1 =>
    rcases insertAlias_ok_existing c s m m1 a hins v hl with h | h
    · exact absurd h hv
    · exact absurd h hvs

/-- A non-empty binding survives a successful alias fold with the same
value (it is only ever overwritten with an equal value). -/
theorem foldAliases_preserve (c : List String) (s : String) (xs : List String)
    (m m' : AliasMap) (a v : String) (h : foldAliases c s xs m = .ok m')
    (hl : mapLookup m a = some v) (hv : v ≠ "") : mapLookup m' a = some v := by
  induction xs generalizing m with
  | nil =>
    simp only [foldAliases] at h
    cases h; exact hl
  | cons a0 rest ih =>
    cases hins : insertAlias c s m a0 with
    | error e =>
      simp only [foldAliases, hins] at h
      exact Except.noConfusion h
    | ok m1 =>
      simp only [foldAliases, hins] at h
      have hm1 := insertAlias_ok_eq c s m m1 a0 hins
      by_cases heq : a0 = a
      · subst heq
        rcases insertAlias_ok_existing c s m m1 a0 hins v hl with hc | hc
        · exact absurd hc hv
        · subst hc
          have : mapLookup m1 a0 = some v := by
            rw [hm1, mapLookup_mapInsert]; simp
          exact ih m1 h this
      · have : mapLookup m1 a = some v := by
          rw [hm1, mapLookup_mapInsert, if_neg heq]; exact hl
        exact ih m1 h this

/-- After a successful fold over a term's aliases with non-empty slug `s`,
every one of those aliases is bound to `s`. -/
theorem foldAliases_ok_mem (c : List String) (s : String) (xs : List String)
    (m m' : AliasMap) (h : foldAliases c s xs m = .ok m') (hs : s ≠ "") :
    ∀ a ∈ xs, mapLookup m' a = some s := by
  induction xs generalizing m with
  | nil => intro a ha; simp at ha
  | cons a0 rest ih =>
    intro a ha
    cases hins : insertAlias c s m a0 with
    | error e =>
      simp only [foldAliases, hins] at h
      exact Except.noConfusion h
    | ok m1 =>
      simp only [foldAliases, hins] at h
      have hm1 := insertAlias_ok_eq c s m m1 a0 hins
      rcases List.mem_cons.mp ha with rfl | hmem
      · have : mapLookup m1 a = some s := by
          rw [hm1, mapLookup_mapInsert]; simp
        exact foldAliases_preserve c s rest m1 m' a s h this hs
      · exact ih m1 h a hmem

/-- A conflicting binding makes the fold over a term's aliases fail when
that term declares the bound alias. -/
theorem foldAliases_conflict_error (c : List String) (s : String) (xs : List String)
    (m : AliasMap) (a v : String) (ha : a ∈ xs) (hl : mapLookup m a = some v)
    (hv : v ≠ "") (hvs : v ≠ s) : ∃ msg, foldAliases c s xs m = .error msg := by
  induction xs generalizing m with
  | nil => simp at ha
  | cons a0 rest ih =>
    cases hins : insertAlias c s m a0 with
    | error e => exact ⟨e, by simp only [foldAliases, hins]⟩
    | ok m1 =>
      rcases List.mem_cons.mp ha with rfl | hmem
      · obtain ⟨msg, hmsg⟩ := insertAlias_conflict_error c s m a v hl hv hvs
        rw [hins] at hmsg
        cases hmsg
      · have hm1 := insertAlias_ok_eq c s m m1 a0 hins
        by_cases heq : a0 = a
        · subst heq
          rcases insertAlias_ok_existing c s m m1 a0 hins v hl with hc | hc
          · exact absurd hc hv
          · exact absurd hc hvs
        · have hpres : mapLookup m1 a = some v := by
            rw [hm1, mapLookup_mapInsert, if_neg heq]; exact hl
          obtain ⟨msg, hmsg⟩ := ih m1 hmem hpres
          exact ⟨msg, by simp only [foldAliases, hins, hmsg]⟩

/-- A non-empty binding survives the whole term fold, or the fold fails. -/
theorem buildAliasFold_preserve (c : List String) (L : List Term)
    (m m' : AliasMap) (a v : String) (h : buildAliasFold c L m = .ok m')
    (hl : mapLookup m a = some v) (hv : v ≠ "") : mapLookup m' a = some v := by
  induction L generalizing m with
  | nil =>
    simp only [buildAliasFold] at h
    cases h; exact hl
  | cons t0 rest ih =>
    cases hf : foldAliases c t0.slug t0.aliases m with
    | error e =>
      simp only [buildAliasFold, hf] at h
      exact Except.noConfusion h
    | ok m1 =>
      simp only [buildAliasFold, hf] at h
      exact ih m1 h (foldAliases_preserve c t0.slug t0.aliases m m1 a v hf hl hv)

/-- A conflicting binding for an alias declared by a later term makes the
term fold fail. -/
theorem buildAliasFold_conflict_error (c : List String) (L : List Term)
    (m : AliasMap) (a v : String) (t2 : Term) (hmem : t2 ∈ L)
    (hl : mapLookup m a = some v) (hv : v ≠ "") (hvs : v ≠ t2.slug)
    (ha : a ∈ t2.aliases) : ∃ msg, buildAliasFold c L m = .error msg := by
  induction L generalizing m with
  | nil => simp at hmem
  | cons t0 rest ih =>
    cases hf : foldAliases c t0.slug t0.aliases m with
    | error e => exact ⟨e, by simp only [buildAliasFold, hf]⟩
    | ok m1 =>
      rcases List.mem_cons.mp hmem with rfl | hmem'
      · obtain ⟨msg, hmsg⟩ := foldAliases_conflict_error c t2.slug t2.aliases m a v ha hl hv hvs
        rw [hf] at hmsg
        cases hmsg
      · have hpres := foldAliases_preserve c t0.slug t0.aliases m m1 a v hf hl hv
        obtain ⟨msg, hmsg⟩ := ih m1 hmem' hpres
        exact ⟨msg, by simp only [buildAliasFold, hf, hmsg]⟩

/-- Two distinct members of a list occur in one of the two orders as a
two-element sublist. -/
theorem mem_mem_pair_sublist {α : Type} (t1 t2 : α) (L : List α)
    (h1 : t1 ∈ L) (h2 : t2 ∈ L) (hne : t1 ≠ t2) :
    [t1, t2].Sublist L ∨ [t2, t1].Sublist L := by
  induction L with
  | nil => simp at h1
  | cons h rest ih =>
    rcases List.mem_cons.mp h1 with rfl | hm1
    · have hm2 : t2 ∈ rest := by
        rcases List.mem_cons.mp h2 with rfl | hm2
        · exact absurd rfl hne
        · exact hm2
      exact Or.inl (List.Sublist.cons₂ t1 (List.singleton_sublist.mpr hm2))
    · rcases List.mem_cons.mp h2 with rfl | hm2
      · exact Or.inr (List.Sublist.cons₂ t2 (List.singleton_sublist.mpr hm1))
      · rcases ih hm1 hm2 with hs | hs
        · exact Or.inl (hs.cons h)
        · exact Or.inr (hs.cons h)

/-- Two terms occurring in order with different slugs (the first non-empty)
and a shared alias make the term fold fail. -/
theorem buildAliasFold_shared_error (c : List String) (L : List Term) (m : AliasMap)
    (t1 t2 : Term) (a : String) (hsub : [t1, t2].Sublist L) (hne1 : t1.slug ≠ "")
    (hslug : t1.slug ≠ t2.slug) (ha1 : a ∈ t1.aliases) (ha2 : a ∈ t2.aliases) :
    ∃ msg, buildAliasFold c L m = .error msg := by
  induction L generalizing m with
  | nil => cases hsub
  | cons h rest ih =>
    cases hsub with
    | cons _ hsub' =>
      cases hf : foldAliases c h.slug h.aliases m with
      | error e => exact ⟨e, by simp only [buildAliasFold, hf]⟩
      | ok m1 =>
        obtain ⟨msg, hmsg⟩ := ih m1 hsub'
        exact ⟨msg, by simp only [buildAliasFold, hf, hmsg]⟩
    | cons₂ _ hsub' =>
      cases hf : foldAliases c t1.slug t1.aliases m with
      | error e => exact ⟨e, by simp only [buildAliasFold, hf]⟩
      | ok m1 =>
        have hbind := foldAliases_ok_mem c t1.slug t1.aliases m m1 hf hne1 a ha1
        have hmem2 : t2 ∈ rest := List.singleton_sublist.mp hsub'
        obtain ⟨msg, hmsg⟩ :=
          buildAliasFold_conflict_error c rest m1 a t1.slug t2 hmem2 hbind hne1 hslug ha2
        exact ⟨msg, by simp only [buildAliasFold, hf, hmsg]⟩

/-- Invariant of the alias map during `build_alias_map`: every binding maps
an alias declared by some term to that term's slug. -/
def AliasValuesInv (terms : List Term) (m : AliasMap) : Prop :=
  ∀ a v, mapLookup m a = some v → ∃ u ∈ terms, a ∈ u.aliases ∧ v = u.slug

theorem aliasValuesInv_nil (terms : List Term) : AliasValuesInv terms [] := by
  intro a v h
  simp only [mapLookup] at h
  exact Option.noConfusion h

theorem aliasValuesInv_insert (terms : List Term) (t : Term) (m : AliasMap) (a : String)
    (ht : t ∈ terms) (ha : a ∈ t.aliases) (hinv : AliasValuesInv terms m) :
    AliasValuesInv terms (mapInsert m a t.slug) := by
  intro b v hb
  rw [mapLookup_mapInsert] at hb
  by_cases hab : a = b
  · rw [if_pos hab] at hb
    cases hb
    exact ⟨t, ht, hab ▸ ha, rfl⟩
  · rw [if_neg hab] at hb
    exact hinv b v hb

theorem foldAliases_inv (terms : List Term) (t : Term) (xs : List String)
    (m m1 : AliasMap) (ht : t ∈ terms) (hxs : ∀ a ∈ xs, a ∈ t.aliases)
    (h : foldAliases (terms.map Term.slug) t.slug xs m = .ok m1)
    (hinv : AliasValuesInv terms m) : AliasValuesInv terms m1 := by
  induction xs generalizing m with
  | nil =>
    simp only [foldAliases] at h
    cases h; exact hinv
  | cons a0 rest ih =>
    cases hins : insertAlias (terms.map Term.slug) t.slug m a0 with
    | error e =>
      simp only [foldAliases, hins] at h
      exact Except.noConfusion h
    | ok m' =>
      simp only [foldAliases, hins] at h
      have hm' := insertAlias_ok_eq _ _ _ _ _ hins
      subst hm'
      exact ih (mapInsert m a0 t.slug) (fun a haa => hxs a (List.mem_cons_of_mem a0 haa)) h
        (aliasValuesInv_insert terms t m a0 ht (hxs a0 (List.mem_cons_self a0 rest)) hinv)

/-- When no alias is a canonical slug, every error of the per-term alias
fold is the ambiguity message, naming two distinct canonical slugs. -/
theorem foldAliases_error_shape (terms : List Term) (t : Term) (xs : List String)
    (m : AliasMap) (msg : String) (ht : t ∈ terms) (hxs : ∀ a ∈ xs, a ∈ t.aliases)
    (hnc : ∀ u ∈ terms, ∀ a ∈ u.aliases, a ∉ terms.map Term.slug)
    (hinv : AliasValuesInv terms m)
    (h : foldAliases (terms.map Term.slug) t.slug xs m = .error msg) :
    ∃ a v s, msg = ambiguityMsg a v s ∧ v ≠ s ∧
      v ∈ terms.map Term.slug ∧ s ∈ terms.map Term.slug := by
  induction xs generalizing m with
  | nil =>
    simp only [foldAliases] at h
    exact Except.noConfusion h
  | cons a0 rest ih =>
    have ha0 : a0 ∈ t.aliases := hxs a0 (List.mem_cons_self a0 rest)
    cases hins : insertAlias (terms.map Term.slug) t.slug m a0 with
    | error e =>
      simp only [foldAliases, hins] at h
      cases h
      unfold insertAlias at hins
      by_cases hc : a0 ∈ terms.map Term.slug
      · exact absurd hc (hnc t ht a0 ha0)
      · rw [if_neg hc] at hins
        cases hl : mapLookup m a0 with
        | none => rw [hl] at hins; cases hins
        | some v =>
          rw [hl] at hins
          have h2 : (if v ≠ "" ∧ v ≠ t.slug then Except.error (ambiguityMsg a0 v t.slug)
              else Except.ok (mapInsert m a0 t.slug)) = Except.error msg := hins
          by_cases hcond : v ≠ "" ∧ v ≠ t.slug
          · rw [if_pos hcond] at h2
            cases h2
            obtain ⟨u, hu, _, hveq⟩ := hinv a0 v hl
            exact ⟨a0, v, t.slug, rfl, hcond.2,
              List.mem_map.mpr ⟨u, hu, hveq.symm⟩, List.mem_map.mpr ⟨t, ht, rfl⟩⟩
          · rw [if_neg hcond] at h2
            cases h2
    | ok m' =>
      simp only [foldAliases, hins] at h
      have hm' := insertAlias_ok_eq _ _ _ _ _ hins
      subst hm'
      exact ih (mapInsert m a0 t.slug)
        (fun a haa => hxs a (List.mem_cons_of_mem a0 haa))
        (aliasValuesInv_insert terms t m a0 ht ha0 hinv) h

/-- Same error shape for the whole term fold. -/
theorem buildAliasFold_error_shape (terms : List Term) (L : List Term)
    (m : AliasMap) (msg : String) (hsubL : ∀ t ∈ L, t ∈ terms)
    (hnc : ∀ u ∈ terms, ∀ a ∈ u.aliases, a ∉ terms.map Term.slug)
    (hinv : AliasValuesInv terms m)
    (h : buildAliasFold (terms.map Term.slug) L m = .error msg) :
    ∃ a v s, msg = ambiguityMsg a v s ∧ v ≠ s ∧
      v ∈ terms.map Term.slug ∧ s ∈ terms.map Term.slug := by
  induction L generalizing m with
  | nil =>
    simp only [buildAliasFold] at h
    exact Except.noConfusion h
  | cons t0 rest ih =>
    have ht0 : t0 ∈ terms := hsubL t0 (List.mem_cons_self t0 rest)
    cases hf : foldAliases (terms.map Term.slug) t0.slug t0.aliases m with
    | error e =>
      simp only [buildAliasFold, hf] at h
      cases h
      exact foldAliases_error_shape terms t0 t0.aliases m msg ht0 (fun _ haa => haa)
        hnc hinv hf
    | ok m1 =>
      simp only [buildAliasFold, hf] at h
      exact ih m1 (fun t htm => hsubL t (List.mem_cons_of_mem t0 htm))
        (foldAliases_inv terms t0 t0.aliases m m1 ht0 (fun _ haa => haa) hf hinv) h

/-- Success of the per-term fold when no alias is a canonical slug and
aliases are only shared between terms with equal slugs. -/
theorem foldAliases_success (terms : List Term) (t : Term) (xs : List String) (m : AliasMap)
    (ht : t ∈ terms) (hxs : ∀ a ∈ xs, a ∈ t.aliases)
    (hnc : ∀ u ∈ terms, ∀ a ∈ u.aliases, a ∉ terms.map Term.slug)
    (hshared : ∀ t1 ∈ terms, ∀ t2 ∈ terms, ∀ a, a ∈ t1.aliases → a ∈ t2.aliases →
      t1.slug = t2.slug)
    (hinv : AliasValuesInv terms m) :
    ∃ m1, foldAliases (terms.map Term.slug) t.slug xs m = .ok m1 ∧
      AliasValuesInv terms m1 ∧
      (∀ b v, mapLookup m b = some v → mapLookup m1 b = some v) ∧
      (∀ a ∈ xs, mapLookup m1 a = some t.slug) := by
  induction xs generalizing m with
  | nil =>
    refine ⟨m, by simp only [foldAliases], hinv, fun b v hb => hb, ?_⟩
    intro a ha; simp at ha
  | cons a0 rest ih =>
    have ha0 : a0 ∈ t.aliases := hxs a0 (List.mem_cons_self a0 rest)
    have hc : a0 ∉ terms.map Term.slug := hnc t ht a0 ha0
    have hval : ∀ v, mapLookup m a0 = some v → v = t.slug := by
      intro v hl
      obtain ⟨u, hu, hau, hveq⟩ := hinv a0 v hl
      rw [hveq]
      exact hshared u hu t ht a0 hau ha0
    have hins : insertAlias (terms.map Term.slug) t.slug m a0 = .ok (mapInsert m a0 t.slug) := by
      unfold insertAlias
      rw [if_neg hc]
      cases hl : mapLookup m a0 with
      | none => rfl
      | some v =>
        have hv := hval v hl
        have hcond : ¬(v ≠ "" ∧ v ≠ t.slug) := by
          intro hcond
          exact hcond.2 hv
        show (if v ≠ "" ∧ v ≠ t.slug then Except.error (ambiguityMsg a0 v t.slug)
            else Except.ok (mapInsert m a0 t.slug)) = Except.ok (mapInsert m a0 t.slug)
        rw [if_neg hcond]
    obtain ⟨m1, hfold, hinv1, hpres1, hmem1⟩ :=
      ih (mapInsert m a0 t.slug) (fun a haa => hxs a (List.mem_cons_of_mem a0 haa))
        (aliasValuesInv_insert terms t m a0 ht ha0 hinv)
    refine ⟨m1, by simp only [foldAliases, hins, hfold], hinv1, ?_, ?_⟩
    · intro b v hb
      apply hpres1
      rw [mapLookup_mapInsert]
      by_cases hab : a0 = b
      · subst hab
        rw [if_pos rfl]
        rw [hval v hb]
      · rw [if_neg hab]; exact hb
    · intro a ha
      rcases List.mem_cons.mp ha with rfl | hmem
      · apply hpres1
        rw [mapLookup_mapInsert, if_pos rfl]
      · exact hmem1 a hmem

/-- Success of the whole term fold, with every declared alias bound to its
declaring term's slug. -/
theorem buildAliasFold_success (terms : List Term) (L : List Term) (m : AliasMap)
    (hsubL : ∀ t ∈ L, t ∈ terms)
    (hnc : ∀ u ∈ terms, ∀ a ∈ u.aliases, a ∉ terms.map Term.slug)
    (hshared : ∀ t1 ∈ terms, ∀ t2 ∈ terms, ∀ a, a ∈ t1.aliases → a ∈ t2.aliases →
      t1.slug = t2.slug)
    (hinv : AliasValuesInv terms m) :
    ∃ m1, buildAliasFold (terms.map Term.slug) L m = .ok m1 ∧
      (∀ b v, mapLookup m b = some v → mapLookup m1 b = some v) ∧
      (∀ t ∈ L, ∀ a ∈ t.aliases, mapLookup m1 a = some t.slug) := by
  induction L generalizing m with
  | nil =>
    refine ⟨m, by simp only [buildAliasFold], fun b v hb => hb, ?_⟩
    intro t htm; simp at htm
  | cons t0 rest ih =>
    have ht0 : t0 ∈ terms := hsubL t0 (List.mem_cons_self t0 rest)
    obtain ⟨m1, hfold, hinv1, hpres1, hmem1⟩ :=
      foldAliases_success terms t0 t0.aliases m ht0 (fun _ haa => haa) hnc hshared hinv
    obtain ⟨m2, hfold2, hpres2, hmem2⟩ :=
      ih m1 (fun t htm => hsubL t (List.mem_cons_of_mem t0 htm)) hinv1
    refine ⟨m2, by simp only [buildAliasFold, hfold, hfold2], ?_, ?_⟩
    · intro b v hb
      exact hpres2 b v (hpres1 b v hb)
    · intro t htm a ha
      rcases List.mem_cons.mp htm with rfl | hmem
      · exact hpres2 a t.slug (hmem1 a ha)
      · exact hmem2 t hmem a ha

/-- **C3 (amended: slugs additionally non-empty).**  For term lists with
pairwise distinct, non-empty slugs: if two terms with different slugs both
declare the same alias, `build_alias_map` reports a collision error — and
when no alias equals a canonical slug, that error is the ambiguity message
naming the two distinct conflicting canonical slugs.  Conversely, when no
alias equals a canonical slug and aliases are only shared between terms of
equal slug, `build_alias_map` succeeds with every declared alias mapped to
its declaring term's slug. -/
theorem c3_shared_alias_collision (terms : List Term)
    (_hnd : (terms.map Term.slug).Nodup)
    (hne : ∀ t ∈ terms, t.slug ≠ "") :
    ((∃ t1 ∈ terms, ∃ t2 ∈ terms, t1.slug ≠ t2.slug ∧ ∃ a, a ∈ t1.aliases ∧ a ∈ t2.aliases) →
      ∃ msg, buildAliasMap terms = .error msg ∧
        ((∀ u ∈ terms, ∀ a ∈ u.aliases, a ∉ terms.map Term.slug) →
          ∃ a v s, msg = ambiguityMsg a v s ∧ v ≠ s ∧
            v ∈ terms.map Term.slug ∧ s ∈ terms.map Term.slug)) ∧
    ((∀ u ∈ terms, ∀ a ∈ u.aliases, a ∉ terms.map Term.slug) →
     (∀ t1 ∈ terms, ∀ t2 ∈ terms, ∀ a, a ∈ t1.aliases → a ∈ t2.aliases → t1.slug = t2.slug) →
     ∃ m, buildAliasMap terms = .ok m ∧
       ∀ t ∈ terms, ∀ a ∈ t.aliases, mapLookup m a = some t.slug) := by
  constructor
  · rintro ⟨t1, ht1, t2, ht2, hslug, a, ha1, ha2⟩
    have htne : t1 ≠ t2 := fun hh => hslug (congrArg Term.slug hh)
    have herr : ∃ msg, buildAliasFold (terms.map Term.slug) terms [] = .error msg := by
      rcases mem_mem_pair_sublist t1 t2 terms ht1 ht2 htne with hs | hs
      · exact buildAliasFold_shared_error _ terms [] t1 t2 a hs (hne t1 ht1) hslug ha1 ha2
      · exact buildAliasFold_shared_error _ terms [] t2 t1 a hs (hne t2 ht2)
          (fun hh => hslug hh.symm) ha2 ha1
    obtain ⟨msg, hmsg⟩ := herr
    refine ⟨msg, hmsg, ?_⟩
    intro hnc
    exact buildAliasFold_error_shape terms terms [] msg (fun _ htm => htm) hnc
      (aliasValuesInv_nil terms) hmsg
  · intro hnc hshared
    obtain ⟨m1, hfold, _, hmem⟩ :=
      buildAliasFold_success terms terms [] (fun _ htm => htm) hnc hshared
        (aliasValuesInv_nil terms)
    exact ⟨m1, hfold, hmem⟩

/-- A term list with an **empty** slug on which the original C3 claim
fails: slugs are pairwise distinct, two distinct terms share the alias
`a`, yet `build_alias_map` succeeds (the Python truthiness test
`if existing` treats the recorded empty slug as absent). -/
def exEmptySlugTerm : Term :=
  { slug := "", name := "E", date := "2025", description := "E"
    links := [{ url := "https://example.com/e", label := "E" }]
    sameAs := [], aliases := ["a"]
    termId := "urn:uuid:4ff7ed97-b78f-4ae6-9011-5af714ee241c"
    temporalCoverage := none, startDate := none, endDate := none, dateISO := none
    mtime := 0 }

/-- The second term of the C3 counterexample. -/
def exSlugXTerm : Term :=
  { slug := "x", name := "X", date := "2025", description := "X"
    links := [{ url := "https://example.com/x", label := "X" }]
    sameAs := [], aliases := ["a"]
    termId := "urn:uuid:4ff7ed97-b78f-4ae6-9011-5af714ee241c"
    temporalCoverage := none, startDate := none, endDate := none, dateISO := none
    mtime := 0 }

/-- Counterexample to C3 as stated: a term list with pairwise distinct
slugs in which two distinct terms both declare the alias `a`, on which
`build_alias_map` succeeds (no collision error is reported). -/
theorem c3_shared_alias_counterexample :
    ([exEmptySlugTerm, exSlugXTerm].map Term.slug).Nodup ∧
    exEmptySlugTerm ∈ [exEmptySlugTerm, exSlugXTerm] ∧
    exSlugXTerm ∈ [exEmptySlugTerm, exSlugXTerm] ∧
    exEmptySlugTerm.slug ≠ exSlugXTerm.slug ∧
    "a" ∈ exEmptySlugTerm.aliases ∧ "a" ∈ exSlugXTerm.aliases ∧
    buildAliasMap [exEmptySlugTerm, exSlugXTerm] = .ok [("a", "x")] := by
  refine ⟨by decide, by decide, by decide, by decide, by decide, by decide, by rfl⟩

/-- Result-map lookup helper for closed witness statements. -/
def aliasLookupOf (r : Except String AliasMap) (a : String) : Option String :=
  match r with
  | .ok m => mapLookup m a
  | .error _ => none

/-- Terms used by the C3 witness, collision half: distinct non-empty slugs
sharing alias `z`. -/
def exShareT1 : Term := { exEmptySlugTerm with slug := "s1", aliases := ["z"] }

/-- Second shared-alias witness term. -/
def exShareT2 : Term := { exSlugXTerm with slug := "s2", aliases := ["z"] }

/-- Terms used by the C3 witness, success half. -/
def exOkT1 : Term := { exEmptySlugTerm with slug := "s1", aliases := ["y"] }

/-- Second success-half witness term. -/
def exOkT2 : Term := { exSlugXTerm with slug := "s2", aliases := [] }

/-- Witness for the amended C3 at concrete inputs: the shared-alias list
aborts with the ambiguity error, and the collision-free list succeeds with
the alias bound to its declaring slug. -/
theorem c3_shared_alias_collision_witness :
    buildAliasMap [exShareT1, exShareT2] = .error (ambiguityMsg "z" "s1" "s2") ∧
    aliasLookupOf (buildAliasMap [exOkT1, exOkT2]) "y" = some "s1" := by
  constructor
  · obtain ⟨msg, hmsg, hshape⟩ :=
      (c3_shared_alias_collision [exShareT1, exShareT2] (by decide) (by decide)).1
      (by decide)
    have := hshape (by decide)
    rw [hmsg]
    have hmsg' : buildAliasMap [exShareT1, exShareT2] = .error (ambiguityMsg "z" "s1" "s2") := by rfl
    rw [hmsg'] at hmsg
    cases hmsg
    rfl
  · obtain ⟨m, hm, hmem⟩ :=
      (c3_shared_alias_collision [exOkT1, exOkT2] (by decide) (by decide)).2
      (by decide) (by decide)
    unfold aliasLookupOf
    rw [hm]
    exact hmem exOkT1 (by decide) "y" (by decide)

/-! ### Claim C4: one term per file, sorted by slug -/

theorem mkTerm_slug (slug : String) (d : JObj) (tid : String) (mtime : Nat) :
    (mkTerm slug d tid mtime).slug = slug := rfl

/-- When every file validates, the per-file loop succeeds and produces one
term per file, whose slug is the file's stem, in file order. -/
theorem loadTermsAux_ok (u : Nat → String) (L : List SrcFile) (k : Nat)
    (hval : ∀ f ∈ L, validateTermTypes f.data f.name = .ok ()) :
    ∃ ts, loadTermsAux u L k = .ok ts ∧
      ts.map Term.slug = L.map (fun f => fileStem f.name) := by
  induction L generalizing k with
  | nil => exact ⟨[], rfl, rfl⟩
  | cons f rest ih =>
    have hvf : validateTermTypes f.data f.name = .ok () :=
      hval f (List.mem_cons_self f rest)
    obtain ⟨ts, hts, hmap⟩ :=
      ih (if (normalizeTermFile f.data (u k)).2.2 then k + 1 else k)
        (fun g hg => hval g (List.mem_cons_of_mem f hg))
    refine ⟨mkTerm (fileStem f.name) (normalizeTermFile f.data (u k)).2.1
      (strOf (normalizeTermFile f.data (u k)).1) f.mtime :: ts, ?_, ?_⟩
    · simp only [loadTermsAux, hvf, hts]
    · simp [mkTerm_slug, hmap]

/-- Conversely, a successful per-file loop means every file validated. -/
theorem loadTermsAux_ok_valid (u : Nat → String) (L : List SrcFile) (k : Nat)
    (ts : List Term) (h : loadTermsAux u L k = .ok ts) :
    ∀ f ∈ L, validateTermTypes f.data f.name = .ok () := by
  induction L generalizing k ts with
  | nil => intro f hf; simp at hf
  | cons f0 rest ih =>
    intro f hf
    cases hv : validateTermTypes f0.data f0.name with
    | error e =>
      simp only [loadTermsAux, hv] at h
      exact Except.noConfusion h
    | ok unit0 =>
      cases unit0
      rcases List.mem_cons.mp hf with rfl | hmem
      · exact hv
      · simp only [loadTermsAux, hv] at h
        cases haux : loadTermsAux u rest
            (if (normalizeTermFile f0.data (u k)).2.2 then k + 1 else k) with
        | error e =>
          rw [haux] at h
          exact Except.noConfusion h
        | ok ts' => exact ih _ ts' haux f hmem

/-- Number of loaded terms (0 for an aborted load): used in witnesses. -/
def loadCount : Except String (List Term) → Nat
  | .ok ts => ts.length
  | .error _ => 0

/-- **C4.** For an input directory whose term (`*.json`) files all pass
validation, `load_terms` succeeds and produces exactly one normalized term
record per term source file, its slug the filename without the `.json`
extension, and the returned list is sorted by slug (lexicographically, via
`String` order). -/
theorem c4_load_terms (dir : List SrcFile) (u : Nat → String)
    (hval : ∀ f ∈ dir, strEndsWith f.name ".json" = true →
      validateTermTypes f.data f.name = .ok ()) :
    ∃ ts, loadTerms dir u = .ok ts ∧
      ts.length = (dir.filter (fun f => strEndsWith f.name ".json")).length ∧
      List.Sorted (fun a b : Term => a.slug ≤ b.slug) ts ∧
      (ts.map Term.slug).Perm
        ((dir.filter (fun f => strEndsWith f.name ".json")).map (fun f => fileStem f.name)) := by
  set files := dir.filter (fun f => strEndsWith f.name ".json") with hfiles
  have hperm : (sortByName files).Perm files := List.perm_insertionSort _ files
  have hval' : ∀ f ∈ sortByName files, validateTermTypes f.data f.name = .ok () := by
    intro f hf
    have hmem : f ∈ files := hperm.mem_iff.mp hf
    have := List.mem_filter.mp hmem
    exact hval f this.1 this.2
  obtain ⟨ts0, haux, hmap⟩ := loadTermsAux_ok u (sortByName files) 0 hval'
  have hsortedperm : (sortBySlug ts0).Perm ts0 := List.perm_insertionSort _ ts0
  refine ⟨sortBySlug ts0, by simp only [loadTerms, ← hfiles, haux], ?_, ?_, ?_⟩
  · have h1 : ts0.length = (sortByName files).length := by
      have := congrArg List.length hmap
      simpa using this
    calc (sortBySlug ts0).length = ts0.length := hsortedperm.length_eq
      _ = (sortByName files).length := h1
      _ = files.length := hperm.length_eq
  · exact List.sorted_insertionSort _ ts0
  · have p1 : ((sortBySlug ts0).map Term.slug).Perm (ts0.map Term.slug) :=
      hsortedperm.map _
    have p3 : ((sortByName files).map (fun f => fileStem f.name)).Perm
        (files.map (fun f => fileStem f.name)) := hperm.map _
    exact (hmap ▸ p1).trans p3

/-- Witness for C4: a one-file directory loads to exactly one term. -/
theorem c4_load_terms_witness :
    loadCount (loadTerms [exFileSelfAlias] exSupply) =
      ([exFileSelfAlias].filter (fun f => strEndsWith f.name ".json")).length := by
  obtain ⟨ts, hts, hlen, _, _⟩ := c4_load_terms [exFileSelfAlias] exSupply
    (by
      intro f hf _
      have : f = exFileSelfAlias := by simpa using hf
      subst this
      rfl)
  unfold loadCount
  rw [hts]
  exact hlen

/-! ### Claim C5: characterization of `validate_term_types` -/

/-- Validity of one `links` element: an object with non-empty (stripped)
`url` and `label` strings. -/
def LinkOk (v : JValue) : Prop :=
  ∃ fs, v = .obj fs ∧
    (∃ u, jGet fs "url" = some (.str u) ∧ hasNonWs u = true) ∧
    (∃ l, jGet fs "label" = some (.str l) ∧ hasNonWs l = true)

/-- Validity of an optional string-array field (`sameAs`, `aliases`). -/
def OptStrArrayOk (d : JObj) (f : String) : Prop :=
  ∀ v, jGet d f = some v →
    ∃ xs, v = .arr xs ∧ ∀ x ∈ xs, ∃ s, x = .str s ∧ hasNonWs s = true

/-- Validity of an optional calendar-date field. -/
def OptDateOk (d : JObj) (f : String) : Prop :=
  ∀ v, jGet d f = some v → ∃ s, v = .str s ∧ isValidIsoDate s = true

/-- The full acceptance condition of `validate_term_types`: the required
fields are present and well-shaped, and every optional field, when present,
is well-shaped too. -/
def ValidTermData (d : JObj) : Prop :=
  (∃ s, jGet d "name" = some (.str s) ∧ hasNonWs s = true) ∧
  (∃ s, jGet d "date" = some (.str s) ∧ hasNonWs s = true) ∧
  (∃ s, jGet d "description" = some (.str s) ∧ hasNonWs s = true) ∧
  (∃ ls, jGet d "links" = some (.arr ls) ∧ ls ≠ [] ∧ ∀ v ∈ ls, LinkOk v) ∧
  OptStrArrayOk d "sameAs" ∧
  OptStrArrayOk d "aliases" ∧
  (∀ v, jGet d "termId" = some v → ∃ s, v = .str s ∧ termIdMatch s = true) ∧
  (∀ v, jGet d "temporalCoverage" = some v → ∃ s, v = .str s ∧ hasNonWs s = true) ∧
  OptDateOk d "startDate" ∧ OptDateOk d "endDate" ∧ OptDateOk d "dateISO"

theorem checkHas_ok_iff (d : JObj) (fn f : String) :
    checkHas d fn f = .ok () ↔ jHas d f = true := by
  unfold checkHas
  by_cases h : jHas d f <;> simp [h]

theorem checkNonemptyStr_ok_iff (d : JObj) (fn f : String) :
    checkNonemptyStr d fn f = .ok () ↔
      ∃ s, jGet d f = some (.str s) ∧ hasNonWs s = true := by
  unfold checkNonemptyStr
  cases hg : jGet d f with
  | none => simp
  | some v =>
    cases v with
    | str s => by_cases hw : hasNonWs s <;> simp [hw]
    | null => simp
    | bool b => simp
    | num n => simp
    | arr xs => simp
    | obj fs => simp

theorem strElemOk_iff (x : JValue) :
    strElemOk x = true ↔ ∃ s, x = .str s ∧ hasNonWs s = true := by
  cases x <;> simp [strElemOk]

theorem checkLinkItem_ok_iff (fn : String) (i : Nat) (v : JValue) :
    checkLinkItem fn i v = .ok () ↔ LinkOk v := by
  cases v with
  | obj fs =>
    simp only [checkLinkItem, vSeq_ok_iff]
    constructor
    · rintro ⟨hhas, hurl, hlab⟩
      refine ⟨fs, rfl, ?_, ?_⟩
      · revert hurl
        cases hu : jGet fs "url" with
        | none => intro hurl; exact Except.noConfusion hurl
        | some w =>
          cases w with
          | str s =>
            intro hurl
            by_cases hw : hasNonWs s
            · exact ⟨s, rfl, hw⟩
            · simp [hw] at hurl
          | null => intro hurl; exact Except.noConfusion hurl
          | bool b => intro hurl; exact Except.noConfusion hurl
          | num n => intro hurl; exact Except.noConfusion hurl
          | arr xs => intro hurl; exact Except.noConfusion hurl
          | obj gs => intro hurl; exact Except.noConfusion hurl
      · revert hlab
        cases hl : jGet fs "label" with
        | none => intro hlab; exact Except.noConfusion hlab
        | some w =>
          cases w with
          | str s =>
            intro hlab
            by_cases hw : hasNonWs s
            · exact ⟨s, rfl, hw⟩
            · simp [hw] at hlab
          | null => intro hlab; exact Except.noConfusion hlab
          | bool b => intro hlab; exact Except.noConfusion hlab
          | num n => intro hlab; exact Except.noConfusion hlab
          | arr xs => intro hlab; exact Except.noConfusion hlab
          | obj gs => intro hlab; exact Except.noConfusion hlab
    · rintro ⟨fs', heq, ⟨u', hu, hwu⟩, ⟨l', hl, hwl⟩⟩
      have hfs : fs = fs' := by injection heq
      subst hfs
      refine ⟨?_, ?_, ?_⟩
      · simp [jHas, hu, hl]
      · simp [hu, hwu]
      · simp [hl, hwl]
  | null => simp [checkLinkItem, LinkOk]
  | bool b => simp [checkLinkItem, LinkOk]
  | num n => simp [checkLinkItem, LinkOk]
  | str s => simp [checkLinkItem, LinkOk]
  | arr xs => simp [checkLinkItem, LinkOk]

theorem checkLinkItems_ok_iff (fn : String) (ls : List JValue) :
    ∀ i, checkLinkItems fn i ls = .ok () ↔ ∀ v ∈ ls, LinkOk v := by
  induction ls with
  | nil => intro i; simp [checkLinkItems]
  | cons v rest ih =>
    intro i
    simp [checkLinkItems, vSeq_ok_iff, checkLinkItem_ok_iff, ih (i + 1),
      List.forall_mem_cons]

theorem checkLinks_ok_iff (d : JObj) (fn : String) :
    checkLinks d fn = .ok () ↔
      ∃ ls, jGet d "links" = some (.arr ls) ∧ ls ≠ [] ∧ ∀ v ∈ ls, LinkOk v := by
  unfold checkLinks
  cases hg : jGet d "links" with
  | none => simp
  | some v =>
    cases v with
    | arr ls =>
      by_cases hemp : ls = []
      · subst hemp; simp
      · have hemp' : ls.isEmpty = false := by
          simpa [List.isEmpty_iff] using hemp
        simp [hemp', checkLinkItems_ok_iff, hemp]
    | null => simp
    | bool b => simp
    | num n => simp
    | str s => simp
    | obj fs => simp

theorem checkOptStrArray_ok_iff (d : JObj) (fn f : String) :
    checkOptStrArray d fn f = .ok () ↔ OptStrArrayOk d f := by
  unfold checkOptStrArray OptStrArrayOk
  cases hg : jGet d f with
  | none => simp
  | some v =>
    cases v with
    | arr xs =>
      constructor
      · intro h v hv
        have hvv : JValue.arr xs = v := by injection hv
        subst hvv
        refine ⟨xs, rfl, ?_⟩
        intro x hx
        by_cases hall : xs.all strElemOk
        · exact (strElemOk_iff x).mp (List.all_eq_true.mp hall x hx)
        · exfalso; revert h; simp [hall]
      · intro h
        obtain ⟨xs', hxs', hP⟩ := h (JValue.arr xs) rfl
        have hxx : xs = xs' := by injection hxs'
        subst hxx
        have hall : xs.all strElemOk = true :=
          List.all_eq_true.mpr (fun x hx => (strElemOk_iff x).mpr (hP x hx))
        simp [hall]
    | null => simp
    | bool b => simp
    | num n => simp
    | str s => simp
    | obj fs => simp

theorem checkTermId_ok_iff (d : JObj) (fn : String) :
    checkTermId d fn = .ok () ↔
      ∀ v, jGet d "termId" = some v → ∃ s, v = .str s ∧ termIdMatch s = true := by
  unfold checkTermId
  cases hg : jGet d "termId" with
  | none => simp
  | some v =>
    cases v with
    | str s => by_cases hm : termIdMatch s <;> simp [hm]
    | null => simp
    | bool b => simp
    | num n => simp
    | arr xs => simp
    | obj fs => simp

theorem checkTemporal_ok_iff (d : JObj) (fn : String) :
    checkTemporal d fn = .ok () ↔
      ∀ v, jGet d "temporalCoverage" = some v →
        ∃ s, v = .str s ∧ hasNonWs s = true := by
  unfold checkTemporal
  cases hg : jGet d "temporalCoverage" with
  | none => simp
  | some v =>
    cases v with
    | str s => by_cases hw : hasNonWs s <;> simp [hw]
    | null => simp
    | bool b => simp
    | num n => simp
    | arr xs => simp
    | obj fs => simp

theorem checkOptDate_ok_iff (d : JObj) (fn f : String) :
    checkOptDate d fn f = .ok () ↔ OptDateOk d f := by
  unfold checkOptDate OptDateOk
  cases hg : jGet d f with
  | none => simp
  | some v =>
    cases v with
    | str s => by_cases hv : isValidIsoDate s <;> simp [hv]
    | null => simp
    | bool b => simp
    | num n => simp
    | arr xs => simp
    | obj fs => simp

theorem errMsg_prefix (fn r : String) : strPrefix (fn ++ " ") (errMsg fn r) = true :=
  strPrefix_append (fn ++ " ") r

theorem checkHas_error (d : JObj) (fn f m : String) (h : checkHas d fn f = .error m) :
    ∃ r, m = errMsg fn r := by
  unfold checkHas at h
  split at h
  · exact Except.noConfusion h
  · cases h; exact ⟨_, rfl⟩

theorem checkNonemptyStr_error (d : JObj) (fn f m : String)
    (h : checkNonemptyStr d fn f = .error m) : ∃ r, m = errMsg fn r := by
  unfold checkNonemptyStr at h
  split at h
  · split at h
    · exact Except.noConfusion h
    · cases h; exact ⟨_, rfl⟩
  · cases h; exact ⟨_, rfl⟩

theorem checkLinkItem_error (fn : String) (i : Nat) (v : JValue) (m : String)
    (h : checkLinkItem fn i v = .error m) : ∃ r, m = errMsg fn r := by
  cases v with
  | obj fs =>
    simp only [checkLinkItem] at h
    rcases vSeq_error_elim _ _ _ h with hA | ⟨_, hBC⟩
    · split at hA
      · exact Except.noConfusion hA
      · cases hA; exact ⟨_, rfl⟩
    · rcases vSeq_error_elim _ _ _ hBC with hB | ⟨_, hC⟩
      · split at hB
        · split at hB
          · exact Except.noConfusion hB
          · cases hB; exact ⟨_, rfl⟩
        · cases hB; exact ⟨_, rfl⟩
      · split at hC
        · split at hC
          · exact Except.noConfusion hC
          · cases hC; exact ⟨_, rfl⟩
        · cases hC; exact ⟨_, rfl⟩
  | null => simp only [checkLinkItem] at h; cases h; exact ⟨_, rfl⟩
  | bool b => simp only [checkLinkItem] at h; cases h; exact ⟨_, rfl⟩
  | num n => simp only [checkLinkItem] at h; cases h; exact ⟨_, rfl⟩
  | str s => simp only [checkLinkItem] at h; cases h; exact ⟨_, rfl⟩
  | arr xs => simp only [checkLinkItem] at h; cases h; exact ⟨_, rfl⟩

theorem checkLinkItems_error (fn : String) (ls : List JValue) :
    ∀ i m, checkLinkItems fn i ls = .error m → ∃ r, m = errMsg fn r := by
  induction ls with
  | nil =>
    intro i m h
    simp only [checkLinkItems] at h
    exact Except.noConfusion h
  | cons v rest ih =>
    intro i m h
    simp only [checkLinkItems] at h
    rcases vSeq_error_elim _ _ _ h with h1 | ⟨_, h2⟩
    · exact checkLinkItem_error fn i v m h1
    · exact ih (i + 1) m h2

theorem checkLinks_error (d : JObj) (fn m : String) (h : checkLinks d fn = .error m) :
    ∃ r, m = errMsg fn r := by
  unfold checkLinks at h
  split at h
  · split at h
    · cases h; exact ⟨_, rfl⟩
    · exact checkLinkItems_error fn _ 0 m h
  · cases h; exact ⟨_, rfl⟩

theorem checkOptStrArray_error (d : JObj) (fn f m : String)
    (h : checkOptStrArray d fn f = .error m) : ∃ r, m = errMsg fn r := by
  unfold checkOptStrArray at h
  split at h
  · exact Except.noConfusion h
  · split at h
    · exact Except.noConfusion h
    · cases h; exact ⟨_, rfl⟩
  · cases h; exact ⟨_, rfl⟩

theorem checkTermId_error (d : JObj) (fn m : String) (h : checkTermId d fn = .error m) :
    ∃ r, m = errMsg fn r := by
  unfold checkTermId at h
  split at h
  · exact Except.noConfusion h
  · split at h
    · exact Except.noConfusion h
    · cases h; exact ⟨_, rfl⟩
  · cases h; exact ⟨_, rfl⟩

theorem checkTemporal_error (d : JObj) (fn m : String) (h : checkTemporal d fn = .error m) :
    ∃ r, m = errMsg fn r := by
  unfold checkTemporal at h
  split at h
  · exact Except.noConfusion h
  · split at h
    · exact Except.noConfusion h
    · cases h; exact ⟨_, rfl⟩
  · cases h; exact ⟨_, rfl⟩

theorem checkOptDate_error (d : JObj) (fn f m : String)
    (h : checkOptDate d fn f = .error m) : ∃ r, m = errMsg fn r := by
  unfold checkOptDate at h
  split at h
  · exact Except.noConfusion h
  · split at h
    · exact Except.noConfusion h
    · cases h; exact ⟨_, rfl⟩
  · cases h; exact ⟨_, rfl⟩

/-- Every diagnostic of `validate_term_types` starts with the offending
filename (`f"{filename} ..."`). -/
theorem validateTermTypes_error_prefix (d : JObj) (fn m : String)
    (h : validateTermTypes d fn = .error m) : strPrefix (fn ++ " ") m = true := by
  have key : ∃ r, m = errMsg fn r := by
    simp only [validateTermTypes] at h
    rcases vSeq_error_elim _ _ _ h with h1 | ⟨_, h⟩
    · exact checkHas_error _ _ _ _ h1
    rcases vSeq_error_elim _ _ _ h with h1 | ⟨_, h⟩
    · exact checkHas_error _ _ _ _ h1
    rcases vSeq_error_elim _ _ _ h with h1 | ⟨_, h⟩
    · exact checkHas_error _ _ _ _ h1
    rcases vSeq_error_elim _ _ _ h with h1 | ⟨_, h⟩
    · exact checkHas_error _ _ _ _ h1
    rcases vSeq_error_elim _ _ _ h with h1 | ⟨_, h⟩
    · exact checkNonemptyStr_error _ _ _ _ h1
    rcases vSeq_error_elim _ _ _ h with h1 | ⟨_, h⟩
    · exact checkNonemptyStr_error _ _ _ _ h1
    rcases vSeq_error_elim _ _ _ h with h1 | ⟨_, h⟩
    · exact checkNonemptyStr_error _ _ _ _ h1
    rcases vSeq_error_elim _ _ _ h with h1 | ⟨_, h⟩
    · exact checkLinks_error _ _ _ h1
    rcases vSeq_error_elim _ _ _ h with h1 | ⟨_, h⟩
    · exact checkOptStrArray_error _ _ _ _ h1
    rcases vSeq_error_elim _ _ _ h with h1 | ⟨_, h⟩
    · exact checkOptStrArray_error _ _ _ _ h1
    rcases vSeq_error_elim _ _ _ h with h1 | ⟨_, h⟩
    · exact checkTermId_error _ _ _ h1
    rcases vSeq_error_elim _ _ _ h with h1 | ⟨_, h⟩
    · exact checkTemporal_error _ _ _ h1
    rcases vSeq_error_elim _ _ _ h with h1 | ⟨_, h⟩
    · exact checkOptDate_error _ _ _ _ h1
    rcases vSeq_error_elim _ _ _ h with h1 | ⟨_, h⟩
    · exact checkOptDate_error _ _ _ _ h1
    exact checkOptDate_error _ _ _ _ h
  obtain ⟨r, hr⟩ := key
  rw [hr]
  exact errMsg_prefix fn r

/-- Acceptance characterization of `validate_term_types`. -/
theorem validateTermTypes_ok_iff (d : JObj) (fn : String) :
    validateTermTypes d fn = .ok () ↔ ValidTermData d := by
  constructor
  · intro h
    simp only [validateTermTypes, vSeq_ok_iff] at h
    obtain ⟨h1, h2, h3, h4, h5, h6, h7, h8, h9, h10, h11, h12, h13, h14, h15⟩ := h
    exact ⟨(checkNonemptyStr_ok_iff d fn "name").mp h5,
      (checkNonemptyStr_ok_iff d fn "date").mp h6,
      (checkNonemptyStr_ok_iff d fn "description").mp h7,
      (checkLinks_ok_iff d fn).mp h8,
      (checkOptStrArray_ok_iff d fn "sameAs").mp h9,
      (checkOptStrArray_ok_iff d fn "aliases").mp h10,
      (checkTermId_ok_iff d fn).mp h11,
      (checkTemporal_ok_iff d fn).mp h12,
      (checkOptDate_ok_iff d fn "startDate").mp h13,
      (checkOptDate_ok_iff d fn "endDate").mp h14,
      (checkOptDate_ok_iff d fn "dateISO").mp h15⟩
  · rintro ⟨hn, hdt, hdesc, hl, hsa, hal, hti, htc, hsd, hed, hdi⟩
    simp only [validateTermTypes, vSeq_ok_iff]
    have hjn : jHas d "name" = true := by
      obtain ⟨s, hs, _⟩ := hn; simp [jHas, hs]
    have hjd : jHas d "date" = true := by
      obtain ⟨s, hs, _⟩ := hdt; simp [jHas, hs]
    have hjde : jHas d "description" = true := by
      obtain ⟨s, hs, _⟩ := hdesc; simp [jHas, hs]
    have hjl : jHas d "links" = true := by
      obtain ⟨ls, hls, _, _⟩ := hl; simp [jHas, hls]
    refine ⟨(checkHas_ok_iff d fn "name").mpr hjn,
      (checkHas_ok_iff d fn "date").mpr hjd,
      (checkHas_ok_iff d fn "description").mpr hjde,
      (checkHas_ok_iff d fn "links").mpr hjl,
      (checkNonemptyStr_ok_iff d fn "name").mpr hn,
      (checkNonemptyStr_ok_iff d fn "date").mpr hdt,
      (checkNonemptyStr_ok_iff d fn "description").mpr hdesc,
      (checkLinks_ok_iff d fn).mpr hl,
      (checkOptStrArray_ok_iff d fn "sameAs").mpr hsa,
      (checkOptStrArray_ok_iff d fn "aliases").mpr hal,
      (checkTermId_ok_iff d fn).mpr hti,
      (checkTemporal_ok_iff d fn).mpr htc,
      (checkOptDate_ok_iff d fn "startDate").mpr hsd,
      (checkOptDate_ok_iff d fn "endDate").mpr hed,
      (checkOptDate_ok_iff d fn "dateISO").mpr hdi⟩

/-- **C5 (amended: optional fields must also be well-shaped).**
`validate_term_types` accepts exactly when the required fields `name`,
`date`, `description` and `links` are present and well-shaped (the three
strings non-empty after stripping; `links` a non-empty array of objects
with non-empty `url` and `label` strings) **and** every optional field,
when present, is well-shaped (`sameAs`/`aliases` arrays of non-empty
strings, `termId` matching the `urn:uuid` shape, `temporalCoverage` a
non-empty string, `startDate`/`endDate`/`dateISO` valid calendar dates);
every rejection aborts the build with a message naming the offending
file. -/
theorem c5_validate_characterization (d : JObj) (fn : String) :
    (validateTermTypes d fn = .ok () ↔ ValidTermData d) ∧
    (∀ m, validateTermTypes d fn = .error m → strPrefix (fn ++ " ") m = true) :=
  ⟨validateTermTypes_ok_iff d fn, fun m h => validateTermTypes_error_prefix d fn m h⟩

/-- The acceptance condition claimed by the original C5 (required fields
only), written from the claim's own words as an executable predicate. -/
def requiredFieldsOnlyOk (d : JObj) : Bool :=
  (match jGet d "name" with | some (.str s) => hasNonWs s | _ => false) &&
  (match jGet d "date" with | some (.str s) => hasNonWs s | _ => false) &&
  (match jGet d "description" with | some (.str s) => hasNonWs s | _ => false) &&
  (match jGet d "links" with
   | some (.arr ls) =>
     !ls.isEmpty && ls.all (fun v =>
       match v with
       | .obj fs =>
         (match jGet fs "url" with | some (.str u) => hasNonWs u | _ => false) &&
         (match jGet fs "label" with | some (.str l) => hasNonWs l | _ => false)
       | _ => false)
   | _ => false)

/-- Term data satisfying all of C5's stated conditions but carrying a
malformed optional field. -/
def exBadOptData : JObj :=
  [("name", .str "A"), ("date", .str "2025"), ("description", .str "D"),
   ("links", .arr [.obj [("url", .str "https://example.com/a"), ("label", .str "A")]]),
   ("sameAs", .num 42)]

/-- Counterexample to C5 as stated: data meeting every required-field
condition of the claim is nevertheless rejected (here for a malformed
optional `sameAs`), so acceptance is not equivalent to the required-field
conditions alone. -/
theorem c5_validate_counterexample :
    requiredFieldsOnlyOk exBadOptData = true ∧
    validateTermTypes exBadOptData "t.json" =
      .error "t.json field 'sameAs' must be an array of non-empty strings" := by
  exact ⟨by decide, by rfl⟩

/-- Witness for C5: the characterization accepts a fully well-formed file
and the prefix property holds of a concrete rejection. -/
theorem c5_validate_characterization_witness :
    validateTermTypes [("name", JValue.str "A"), ("date", JValue.str "2025"),
      ("description", JValue.str "D"),
      ("links", JValue.arr [JValue.obj [("url", JValue.str "u"), ("label", JValue.str "l")]])]
      "t.json" = .ok () ∧
    strPrefix ("t.json" ++ " ") "t.json missing required field 'name'" = true := by
  constructor
  · refine (c5_validate_characterization _ "t.json").1.mpr
      ⟨⟨"A", rfl, by decide⟩, ⟨"2025", rfl, by decide⟩, ⟨"D", rfl, by decide⟩,
       ⟨[JValue.obj [("url", JValue.str "u"), ("label", JValue.str "l")]], rfl,
        List.cons_ne_nil _ _, ?_⟩,
       ?_, ?_, ?_, ?_, ?_, ?_, ?_⟩
    · intro v hv
      have hvv : v = JValue.obj [("url", JValue.str "u"), ("label", JValue.str "l")] := by
        simpa using hv
      subst hvv
      exact ⟨[("url", JValue.str "u"), ("label", JValue.str "l")], rfl,
        ⟨"u", rfl, by decide⟩, ⟨"l", rfl, by decide⟩⟩
    all_goals intro v hv; simp [jGet] at hv
  · exact (c5_validate_characterization [] "t.json").2
      "t.json missing required field 'name'" rfl

/-! ### Claim C6: invalid `startDate` aborts the build before any output -/

/-- A `startDate` value `parse_iso_date` rejects (a non-string is rejected
by the preceding type check). -/
def startDateBad : JValue → Bool
  | .str s => !isValidIsoDate s
  | _ => true

/-- A successful `load_terms` run validated every globbed file. -/
theorem loadTerms_ok_valid (dir : List SrcFile) (u : Nat → String) (ts : List Term)
    (h : loadTerms dir u = .ok ts) :
    ∀ f ∈ dir, strEndsWith f.name ".json" = true →
      validateTermTypes f.data f.name = .ok () := by
  intro f hf hjson
  unfold loadTerms at h
  cases haux : loadTermsAux u
      (sortByName (dir.filter (fun g => strEndsWith g.name ".json"))) 0 with
  | error e =>
    rw [haux] at h
    exact Except.noConfusion h
  | ok ts0 =>
    have hmem : f ∈ sortByName (dir.filter (fun g => strEndsWith g.name ".json")) := by
      have hperm := List.perm_insertionSort
        (fun (a b : SrcFile) => a.name ≤ b.name)
        (dir.filter (fun g => strEndsWith g.name ".json"))
      exact hperm.mem_iff.mpr (List.mem_filter.mpr ⟨hf, hjson⟩)
    exact loadTermsAux_ok_valid u _ 0 ts0 haux f hmem

/-- **C6.** When any term source file carries a `startDate` that
`parse_iso_date` rejects (for example `"2025-13-40"`), the whole run
aborts: `buildSite` yields an error, so no output file (index page, term
pages, redirects, exports, sitemap) is produced.  (The diagnostic is the
first failing check's message, which names its file and field.) -/
theorem c6_invalid_startDate_aborts (dir : List SrcFile) (u : Nat → String)
    (h : ∃ f ∈ dir, strEndsWith f.name ".json" = true ∧
      ∃ v, jGet f.data "startDate" = some v ∧ startDateBad v = true) :
    isError (buildSite dir u) = true := by
  obtain ⟨f, hf, hjson, v, hv, hbad⟩ := h
  cases hb : buildSite dir u with
  | error e => rfl
  | ok out =>
    exfalso
    cases hload : loadTerms dir u with
    | error e =>
      unfold buildSite at hb
      rw [hload] at hb
      exact Except.noConfusion hb
    | ok terms =>
      have hval := loadTerms_ok_valid dir u terms hload f hf hjson
      have hok := (validateTermTypes_ok_iff f.data f.name).mp hval
      obtain ⟨_, _, _, _, _, _, _, _, hsd, _, _⟩ := hok
      obtain ⟨s, hvs, hvalid⟩ := hsd v hv
      subst hvs
      simp [startDateBad, hvalid] at hbad

/-- A term file with an invalid `startDate` used by the C6 witness. -/
def exFileBadDate : SrcFile :=
  { name := "bad.json"
    data :=
      [("name", .str "Bad"), ("date", .str "2025"), ("description", .str "B"),
       ("links", .arr [.obj [("url", .str "https://example.com/b"), ("label", .str "B")]]),
       ("startDate", .str "2025-13-40")]
    mtime := 0 }

/-- Witness for C6: the run over a directory containing `bad.json` (whose
`startDate` is `"2025-13-40"`) aborts. -/
theorem c6_invalid_startDate_aborts_witness :
    isError (buildSite [exFileBadDate] exSupply) = true :=
  c6_invalid_startDate_aborts [exFileBadDate] exSupply
    ⟨exFileBadDate, List.mem_singleton.mpr rfl, rfl,
     .str "2025-13-40", rfl, by decide⟩

/-! ### Claim C7: structured-data classification of the first link -/

theorem jGet_machineDateStep (k key : String) (n : JObj) (o : Option String)
    (hk : k ≠ key) :
    jGet (match o with
          | some s => if s != "" then jSet n key (.str s) else n
          | none => n) k = jGet n k := by
  cases o with
  | none => rfl
  | some s =>
    show jGet (if (s != "") = true then jSet n key (.str s) else n) k = jGet n k
    by_cases hs : s = ""
    · subst hs; simp
    · rw [if_pos (by simpa using hs : (s != "") = true)]
      exact jGet_jSet_ne n k key (.str s) (Ne.symm hk)

theorem jGet_applyMachineDates_other (node : JObj) (t : Term) (k : String)
    (h1 : k ≠ "temporalCoverage") (h2 : k ≠ "startDate") (h3 : k ≠ "endDate")
    (h4 : k ≠ "datePublished") :
    jGet (applyMachineDates node t) k = jGet node k := by
  simp only [applyMachineDates]
  rw [jGet_machineDateStep k "datePublished" _ t.dateISO h4,
    jGet_machineDateStep k "endDate" _ t.endDate h3,
    jGet_machineDateStep k "startDate" _ t.startDate h2,
    jGet_machineDateStep k "temporalCoverage" _ t.temporalCoverage h1]

theorem jGet_sameAsStep_isDefinedIn (node : JObj) (t : Term) :
    jGet (if t.sameAs.isEmpty then node
          else jSet node "sameAs" (.arr (t.sameAs.map JValue.str))) "isDefinedIn" =
      jGet node "isDefinedIn" := by
  by_cases hs : t.sameAs.isEmpty
  · simp [hs]
  · simp only [hs, if_false]
    exact jGet_jSet_ne node "isDefinedIn" "sameAs" _ (by decide)

/-- **C7.** The structured-data node of a term depends on its links only
through the first one — replacing the links by just the first leaves the
node unchanged — and the `isDefinedIn` classification of that first URL is:
no reference when it is exactly one of the four excluded root domains,
else a `DiscussionForumPosting` reference to the URL when it contains the
archive domain, else a `CreativeWorkSeries` reference when it contains
`tag/`, else an `Article` reference to the URL with `#article` appended. -/
theorem c7_first_link_classification (t : Term) (l0 : Link) (rest : List Link)
    (h : t.links = l0 :: rest) :
    buildDefinedTermNode t = buildDefinedTermNode { t with links := [l0] } ∧
    jGet (buildDefinedTermNode t) "isDefinedIn" =
      (if l0.url ∈ noDefinedIn then none
       else if strContains l0.url "archive.mycal.net" then
         some (.obj [("@type", .str "DiscussionForumPosting"), ("@id", .str l0.url)])
       else if strContains l0.url "tag/" then
         some (.obj [("@type", .str "CreativeWorkSeries"), ("@id", .str l0.url)])
       else
         some (.obj [("@type", .str "Article"), ("@id", .str (l0.url ++ "#article"))])) := by
  constructor
  · simp only [buildDefinedTermNode, h, List.headD_cons]
    rfl
  · simp only [buildDefinedTermNode, h, List.headD_cons]
    rw [jGet_applyMachineDates_other _ t "isDefinedIn"
      (by decide) (by decide) (by decide) (by decide)]
    rw [jGet_sameAsStep_isDefinedIn]
    by_cases h1 : l0.url ∈ noDefinedIn
    · simp only [h1, if_true]
      rfl
    · simp only [h1, if_false]
      by_cases h2 : strContains l0.url "archive.mycal.net"
      · simp only [h2, if_true]
        exact jGet_jSet_self _ "isDefinedIn" _
      · simp only [h2, if_false]
        by_cases h3 : strContains l0.url "tag/"
        · simp only [h3, if_true]
          exact jGet_jSet_self _ "isDefinedIn" _
        · simp only [h3, if_false]
          exact jGet_jSet_self _ "isDefinedIn" _

/-- Witness for C7: the concrete term's first link is a generic article, so
its node carries an `Article` reference with the `#article` fragment. -/
theorem c7_first_link_classification_witness :
    jGet (buildDefinedTermNode exTermSelfAlias) "isDefinedIn" =
      some (.obj [("@type", .str "Article"),
        ("@id", .str ("https://example.com/a" ++ "#article"))]) := by
  have h := (c7_first_link_classification exTermSelfAlias
    { url := "https://example.com/a", label := "A" } [] rfl).2
  rw [h]
  rfl

/-! ### Claim C8: round-trip of the bulk export -/

/-- Counterexample to C8 as stated: even ignoring the added `canonicalUrl`
field, the parsed export record of a concrete normalized term is **not**
equal to the in-memory normalized record — the record carries the internal
`source_mtime` bookkeeping field (and explicit nulls for absent optional
fields) that the export omits. -/
theorem c8_export_roundtrip_counterexample :
    jErase (exportTermJson exTermSelfAlias) "canonicalUrl" ≠
      termRecordJson exTermSelfAlias := by
  intro hc
  exact absurd (congrArg List.length hc) (by decide)

/-- Per-term core of the amended C8. -/
theorem exportTermJson_roundtrip (t : Term)
    (h1 : t.temporalCoverage ≠ some "") (h2 : t.startDate ≠ some "")
    (h3 : t.endDate ≠ some "") (h4 : t.dateISO ≠ some "") :
    jErase (exportTermJson t) "canonicalUrl" =
      jDropNulls (jErase (termRecordJson t) "source_mtime") := by
  cases htc : t.temporalCoverage <;> cases hsd : t.startDate <;>
    cases hed : t.endDate <;> cases hdi : t.dateISO <;>
      simp_all [exportTermJson, termRecordJson, jErase, jDropNulls]

/-- **C8 (amended: also ignoring the internal `source_mtime` field and the
null-valued optional fields the exporter omits).**  The bulk export is one
record per normalized term, in order; and for each term whose optional
machine-date fields are absent-or-non-empty (as validation guarantees),
the exported record with `canonicalUrl` removed equals the normalized
in-memory record with `source_mtime` removed and null fields dropped. -/
theorem c8_export_roundtrip (ts : List Term)
    (hopt : ∀ t ∈ ts, t.temporalCoverage ≠ some "" ∧ t.startDate ≠ some "" ∧
      t.endDate ≠ some "" ∧ t.dateISO ≠ some "") :
    exportTerms ts = .arr (ts.map (fun t => .obj (exportTermJson t))) ∧
    ∀ t ∈ ts, jErase (exportTermJson t) "canonicalUrl" =
      jDropNulls (jErase (termRecordJson t) "source_mtime") := by
  refine ⟨rfl, ?_⟩
  intro t ht
  obtain ⟨h1, h2, h3, h4⟩ := hopt t ht
  exact exportTermJson_roundtrip t h1 h2 h3 h4

/-- Witness for the amended C8 at a concrete term list. -/
theorem c8_export_roundtrip_witness :
    jErase (exportTermJson exTermSelfAlias) "canonicalUrl" =
      jDropNulls (jErase (termRecordJson exTermSelfAlias) "source_mtime") :=
  (c8_export_roundtrip [exTermSelfAlias] (by decide)).2 exTermSelfAlias
    (List.mem_singleton.mpr rfl)

/-! ### Claim C9: determinism of the build -/

/-- When every globbed file already carries a truthy `termId`, the loader
never draws from the uuid supply, so its result does not depend on it. -/
theorem loadTermsAux_supply_invariant (L : List SrcFile)
    (h : ∀ f ∈ L, ∃ v, jGet f.data "termId" = some v ∧ jTruthy v = true)
    (u1 u2 : Nat → String) :
    ∀ k1 k2, loadTermsAux u1 L k1 = loadTermsAux u2 L k2 := by
  induction L with
  | nil => intro k1 k2; rfl
  | cons f rest ih =>
    intro k1 k2
    obtain ⟨v, hv, htr⟩ := h f (List.mem_cons_self f rest)
    have hnorm : ∀ s, normalizeTermFile f.data s = (v, f.data, false) := by
      intro s
      unfold normalizeTermFile
      rw [hv]
      show (if jTruthy v = true then (v, f.data, false) else _) = (v, f.data, false)
      rw [if_pos htr]
    simp only [loadTermsAux, hnorm]
    cases hval : validateTermTypes f.data f.name with
    | error e => rfl
    | ok u0 =>
      show (match loadTermsAux u1 rest k1 with
            | Except.error e => Except.error e
            | Except.ok ts =>
              Except.ok (mkTerm (fileStem f.name) f.data (strOf v) f.mtime :: ts)) =
           (match loadTermsAux u2 rest k2 with
            | Except.error e => Except.error e
            | Except.ok ts =>
              Except.ok (mkTerm (fileStem f.name) f.data (strOf v) f.mtime :: ts))
      rw [ih (fun g hg => h g (List.mem_cons_of_mem f hg)) k1 k2]

/-- **C9 (amended: every term file already carries its `termId`).**  For
directories in which every term source file already contains a truthy
`termId`, the build is deterministic: two runs produce identical output
files (index page, per-term pages, alias redirects, JSON and NDJSON
exports, sitemap) regardless of the random UUID supply.  (When a `termId`
is missing, a run draws a fresh random UUID — see the counterexample.) -/
theorem c9_deterministic_with_termIds (dir : List SrcFile) (u1 u2 : Nat → String)
    (h : ∀ f ∈ dir, strEndsWith f.name ".json" = true →
      ∃ v, jGet f.data "termId" = some v ∧ jTruthy v = true) :
    buildSite dir u1 = buildSite dir u2 := by
  have hload : loadTerms dir u1 = loadTerms dir u2 := by
    unfold loadTerms
    have hall : ∀ f ∈ sortByName (dir.filter (fun g => strEndsWith g.name ".json")),
        ∃ v, jGet f.data "termId" = some v ∧ jTruthy v = true := by
      intro f hf
      have hperm := List.perm_insertionSort
        (fun (a b : SrcFile) => a.name ≤ b.name)
        (dir.filter (fun g => strEndsWith g.name ".json"))
      have hmem := List.mem_filter.mp (hperm.mem_iff.mp hf)
      exact h f hmem.1 hmem.2
    rw [loadTermsAux_supply_invariant _ hall u1 u2 0 0]
  unfold buildSite
  rw [hload]

/-- A valid term file with no `termId`, for the C9 counterexample. -/
def exFileNoId : SrcFile :=
  { name := "a.json"
    data :=
      [("name", .str "Alpha"), ("date", .str "2025"), ("description", .str "First"),
       ("links", .arr [.obj [("url", .str "https://example.com/a"), ("label", .str "A")]])]
    mtime := 0 }

/-- Two concrete uuid supplies that differ (two draws of `uuid.uuid4()`). -/
def exU1 : Nat → String := fun _ => "00000000-0000-4000-8000-000000000000"

/-- The second supply. -/
def exU2 : Nat → String := fun _ => "11111111-1111-4111-8111-111111111111"

/-- The `termId` of the first record of the `terms.json` export of a run. -/
def firstExportTermId : Except String SiteOutput → String
  | .ok o =>
    match o.termsJson with
    | .arr (.obj fs :: _) =>
      match jGet fs "termId" with
      | some (.str s) => s
      | _ => ""
    | _ => ""
  | .error _ => ""

/-- Counterexample to C9 as stated: over the same input directory (one
valid term file lacking a `termId`), two runs with different random UUID
draws write different `terms.json` exports, so the output files are not
identical. -/
theorem c9_deterministic_counterexample :
    firstExportTermId (buildSite [exFileNoId] exU1) ≠
      firstExportTermId (buildSite [exFileNoId] exU2) := by
  decide

/-- Witness for the amended C9: with the `termId` present, two runs with
the two different supplies coincide. -/
theorem c9_deterministic_with_termIds_witness :
    buildSite [exFileSelfAlias] exU1 = buildSite [exFileSelfAlias] exU2 := by
  apply c9_deterministic_with_termIds
  intro f hf _
  have hfe : f = exFileSelfAlias := by simpa using hf
  subst hfe
  exact ⟨.str "urn:uuid:4ff7ed97-b78f-4ae6-9011-5af714ee241c", rfl, by decide⟩

/-! ### Claim C10: a data directory with no term files aborts the run -/

set_option maxRecDepth 4096 in
/-- **C10.** If the data directory contains no term (`*.json`) source
files, the run aborts with the fatal `no term files found` error (a
non-zero exit) and produces no output files; and conversely every
successful run carries at least one term (page). -/
theorem c10_no_term_files (dir : List SrcFile) (u : Nat → String) :
    ((dir.filter (fun f => strEndsWith f.name ".json")) = [] →
      buildSite dir u = .error "no term files found in data/") ∧
    (∀ out, buildSite dir u = .ok out → 1 ≤ out.termPages.length) := by
  constructor
  · intro hfil
    unfold buildSite loadTerms
    rw [hfil]
    rfl
  · intro out hout
    unfold buildSite at hout
    split at hout
    · exact Except.noConfusion hout
    · rename_i terms hload
      split at hout
      · exact Except.noConfusion hout
      · rename_i hemp
        split at hout
        · exact Except.noConfusion hout
        · cases hout
          have hne : terms ≠ [] := by
            simpa [List.isEmpty_iff] using hemp
          have hpos : 0 < terms.length := List.length_pos.mpr hne
          simpa using hpos

/-- A fully valid term file (termId present, no aliases) whose run
succeeds, for the C10 witness. -/
def exFileOk : SrcFile :=
  { name := "alpha.json"
    data :=
      [("name", .str "Alpha"), ("date", .str "2025"), ("description", .str "First"),
       ("links", .arr [.obj [("url", .str "https://example.com/a"), ("label", .str "A")]]),
       ("termId", .str "urn:uuid:4ff7ed97-b78f-4ae6-9011-5af714ee241c")]
    mtime := 0 }

/-- Witness for C10: the empty directory aborts with the exact message, and
a successful one-file run has at least one term page. -/
theorem c10_no_term_files_witness :
    buildSite [] exSupply = .error "no term files found in data/" ∧
    1 ≤ siteTermCount (buildSite [exFileOk] exSupply) := by
  constructor
  · exact (c10_no_term_files [] exSupply).1 rfl
  · obtain ⟨out, hout⟩ : ∃ out, buildSite [exFileOk] exSupply = .ok out := ⟨_, rfl⟩
    have hlen := (c10_no_term_files [exFileOk] exSupply).2 out hout
    unfold siteTermCount
    rw [hout]
    exact hlen

end MycalTerms
